import Mathlib

/-!
# Commit status controller (`pkg/jx/cmd/controller_commitstatus.go`)

A shallow embedding of the commit status controller: the pod handler `onPod`,
the reconciler `UpsertCommitStatusCheck`, the evaluator `update` and the
status-record handler `onCommitStatus`.

The handlers talk to collaborators that live outside the file: the status
record store and the pipeline-activity lookup behind `jxClient`, the
branch-protection lookup, git-provider discovery and the commit-status
notifier. The store is a value of the state (`World.commitStatuses`); every
other collaborator is a field of `Env` that says how it answers a request.
Every request a handler makes is appended to `World.calls`, so that "performs
no write" or "notifies exactly once" are statements about that trace.
Log output (`log.Infof`, `log.Warnf`) and the `Verbose` flag that only guards
log output are not part of the model.
-/

namespace Jx

/-! ## Data model -/

/-- Modelled from the spec: the `jenkinsv1.ResourceReference` type is declared
outside the file; the fields are the ones the controller assigns
(`pipelineActivityRef: {name, kind, uid}` plus the API version). -/
structure ResourceReference where
  APIVersion : String := ""
  Kind : String := ""
  Name : String := ""
  UID : String := ""
deriving DecidableEq, Repr, Inhabited

/-- Modelled from the spec: the `jenkinsv1.CommitStatusCommitReference` type is
declared outside the file (`commitRef: {url, sha, pullRequestID}`). -/
structure CommitStatusCommitReference where
  GitURL : String := ""
  PullRequest : String := ""
  SHA : String := ""
deriving DecidableEq, Repr, Inhabited

/-- Modelled from the spec: the `jenkinsv1.CommitStatusItem` type is declared
outside the file (`subChecks: [{name, description, pass}]`). -/
structure CommitStatusItem where
  Name : String := ""
  Description : String := ""
  Pass : Bool := false
deriving DecidableEq, Repr, Inhabited

/-- Modelled from the spec: the `jenkinsv1.CommitStatusDetails` type is declared
outside the file (`StatusDetail` of the data model). The default value is
Go's zero value `CommitStatusDetails{}`. -/
structure CommitStatusDetails where
  PipelineActivity : ResourceReference := {}
  Items : List CommitStatusItem := []
  Checked : Bool := false
  Commit : CommitStatusCommitReference := {}
  Context : String := ""
deriving DecidableEq, Repr, Inhabited

/-- Modelled from the spec: the `jenkinsv1.CommitStatusSpec` type is declared
outside the file: the ordered collection of status details of a record. -/
structure CommitStatusSpec where
  Items : List CommitStatusDetails := []
deriving DecidableEq, Repr, Inhabited

/-- Modelled from the spec: the `jenkinsv1.CommitStatus` type is declared outside
the file (`StatusRecord` of the data model). Of the object metadata only the
name and the labels are kept, the two fields the controller sets. -/
structure CommitStatus where
  Name : String := ""
  Labels : List (String × String) := []
  Spec : CommitStatusSpec := {}
deriving DecidableEq, Repr, Inhabited

/-- Modelled from the spec: the `jenkinsv1.PipelineActivity` type is declared
outside the file; the fields are the ones the controller reads
(`GetActivity(name) → {name, kind, uid, apiVersion}`). -/
structure PipelineActivity where
  Name : String := ""
  Kind : String := ""
  UID : String := ""
  APIVersion : String := ""
deriving DecidableEq, Repr, Inhabited

/-- Modelled from the spec: `gits.GitRepositoryInfo` is declared outside the
file; the controller only passes it on, so it is an opaque token. -/
structure GitRepositoryInfo where
  URL : String := ""
deriving DecidableEq, Repr, Inhabited

/-- Modelled from the spec: `gits.GitProvider` is declared outside the file; the
controller only passes it on, so it is an opaque token. -/
structure GitProvider where
  Kind : String := ""
deriving DecidableEq, Repr, Inhabited

/-- Modelled from the spec: a user entry of a server of the git auth
configuration, declared outside the file. -/
structure UserAuth where
  Username : String := ""
  ApiToken : String := ""
deriving DecidableEq, Repr, Inhabited

/-- Modelled from the spec: a server entry of the git auth configuration,
declared outside the file. -/
structure AuthServer where
  Kind : String := ""
  Users : List UserAuth := []
deriving DecidableEq, Repr, Inhabited

/-- Modelled from the spec: `corev1.EnvVar`, declared outside the file. -/
structure EnvVar where
  Name : String := ""
  Value : String := ""
deriving DecidableEq, Repr, Inhabited

/-- Modelled from the spec: `corev1.Container`, declared outside the file; only
the declared environment is read. -/
structure Container where
  Env : List EnvVar := []
deriving DecidableEq, Repr, Inhabited

/-- Modelled from the spec: `corev1.PodSpec`, declared outside the file; only the
initialization containers are read. -/
structure PodSpec where
  InitContainers : List Container := []
deriving DecidableEq, Repr, Inhabited

/-- Modelled from the spec: `corev1.Pod`, declared outside the file. `Labels` is
`none` for Go's nil map. -/
structure Pod where
  Name : String := ""
  Labels : Option (List (String × String)) := none
  Spec : PodSpec := {}
deriving DecidableEq, Repr, Inhabited

/-- Errors a handler can return. `notFound` and `alreadyExists` are the answers
of the status record store, `external` is any error reported by another
collaborator, `moreThanOne` is the `fmt.Errorf` of `UpsertCommitStatusCheck`
with its three arguments (number of matches, sha, matching indices). -/
inductive Error where
  | notFound (name : String)
  | alreadyExists (name : String)
  | external (msg : String)
  | moreThanOne (n : Nat) (sha : String) (found : List Nat)
deriving DecidableEq, Repr, Inhabited

/-- One request made to a collaborator. -/
inductive Call where
  | getCommitStatus (name : String)
  | getPipelineActivity (name : String)
  | createCommitStatus (status : CommitStatus)
  | updateCommitStatus (status : CommitStatus)
  | getBranchProtectionContexts (org repo : String)
  | setenv (key value : String)
  | notifyCommitStatus (commit : CommitStatusCommitReference)
      (state targetUrl description comment context : String)
      (gitProvider : GitProvider) (gitRepoInfo : GitRepositoryInfo)
deriving DecidableEq, Repr, Inhabited

/-- The state the handlers run in: the contents of the status record store and
the trace of requests made so far, oldest first. -/
structure World where
  commitStatuses : List CommitStatus := []
  calls : List Call := []
deriving DecidableEq, Repr, Inhabited

/-- Appends a request to the trace. -/
def World.record (w : World) (c : Call) : World :=
  { w with calls := w.calls ++ [c] }

/-- How the collaborators outside the file answer, and the constants and helper
declared outside the file. An answer depends on the request only. -/
structure Env where
  /-- The constant `builds.LabelBuildName`. -/
  LabelBuildName : String
  /-- The constant `builds.LabelOldBuildName`. -/
  LabelOldBuildName : String
  /-- The helper `kube.ToValidName`. -/
  ToValidName : String → String
  /-- The answer of `PipelineActivities(ns).Get`. -/
  getPipelineActivity : String → Except Error PipelineActivity
  /-- A failure injected into `CommitStatuses(ns).Create`, if any. -/
  createFault : CommitStatus → Option Error
  /-- A failure injected into `CommitStatuses(ns).Update`, if any. -/
  updateFault : CommitStatus → Option Error
  /-- The answer of `prow.GetBranchProtectionContexts`. -/
  GetBranchProtectionContexts : String → String → Except Error (List String)
  /-- The answer of `gits.ParseGitURL`. -/
  ParseGitURL : String → Except Error GitRepositoryInfo
  /-- The answer of `CreateGitAuthConfigService`, as the configured servers. -/
  CreateGitAuthConfigService : Except Error (List AuthServer)
  /-- The answer of `GitServerKind`. -/
  GitServerKind : GitRepositoryInfo → Except Error String
  /-- A failure of `os.Setenv`, if any. -/
  Setenv : String → String → Option Error
  /-- The answer of `createGitProviderForURLWithoutKind`. -/
  createGitProviderForURLWithoutKind : String → Except Error (GitProvider × GitRepositoryInfo)
  /-- The error returned by `extensions.NotifyCommitStatus`, if any. -/
  NotifyCommitStatus : CommitStatusCommitReference → String → String → String → String →
    String → GitProvider → GitRepositoryInfo → Option Error

/-! ## The status record store and the pipeline-activity lookup -/

/-- Modelled from the spec: `CommitStatuses(ns).Get` of the client, declared
outside the file. The store is keyed by record name; the call returns Go's
pair `(status, err)`: the first record of that name and no error, or, when
there is none, a not-found error together with the empty record the typed
client allocates before the request (`status.Spec.Items` is then empty). -/
def getCommitStatus (name : String) (w : World) : (CommitStatus × Option Error) × World :=
  match w.commitStatuses.find? (fun s => s.Name == name) with
  | some status => ((status, none), w.record (.getCommitStatus name))
  | none => (({}, some (.notFound name)), w.record (.getCommitStatus name))

/-- Modelled from the spec: `PipelineActivities(ns).Get` of the client, declared
outside the file; the answer is the one of the environment. -/
def getPipelineActivity (env : Env) (name : String) (w : World) :
    Except Error PipelineActivity × World :=
  (env.getPipelineActivity name, w.record (.getPipelineActivity name))

/-- Modelled from the spec: `CommitStatuses(ns).Create` of the client, declared
outside the file. The call fails when the environment injects a failure or
when a record of that name is already stored; otherwise the record is added
to the store. A failed call leaves the store as it was. -/
def createCommitStatus (env : Env) (status : CommitStatus) (w : World) : Option Error × World :=
  let w := w.record (.createCommitStatus status)
  match env.createFault status with
  | some e => (some e, w)
  | none =>
    if w.commitStatuses.any (fun s => s.Name == status.Name) then
      (some (.alreadyExists status.Name), w)
    else
      (none, { w with commitStatuses := w.commitStatuses ++ [status] })

/-- Replaces the first record named like `status` by `status`. -/
def replaceRecord (status : CommitStatus) : List CommitStatus → List CommitStatus
  | [] => []
  | s :: rest => if s.Name == status.Name then status :: rest else s :: replaceRecord status rest

/-- Modelled from the spec: `CommitStatuses(ns).Update` of the client, declared
outside the file. The call fails when the environment injects a failure or
when no record of that name is stored; otherwise the stored record of that
name is replaced. A failed call leaves the store as it was. -/
def updateCommitStatus (env : Env) (status : CommitStatus) (w : World) : Option Error × World :=
  let w := w.record (.updateCommitStatus status)
  match env.updateFault status with
  | some e => (some e, w)
  | none =>
    if w.commitStatuses.any (fun s => s.Name == status.Name) then
      (none, { w with commitStatuses := replaceRecord status w.commitStatuses })
    else
      (some (.notFound status.Name), w)

/-! ## `UpsertCommitStatusCheck` -/

/-- The loop that collects `possibleStatusDetails`: the indices, counted from
`i`, of the details whose commit sha is `sha`, in order. -/
def possibleStatusDetailsFrom (sha : String) : Nat → List CommitStatusDetails → List Nat
  | _, [] => []
  | i, v :: rest =>
    if v.Commit.SHA = sha then i :: possibleStatusDetailsFrom sha (i + 1) rest
    else possibleStatusDetailsFrom sha (i + 1) rest

/-- The indices of the details of `items` whose commit sha is `sha`. -/
def possibleStatusDetails (sha : String) (items : List CommitStatusDetails) : List Nat :=
  possibleStatusDetailsFrom sha 0 items

/-- The activity reference built from the lookup: the four fields of the
activity when the lookup succeeded, the empty reference otherwise. -/
def activityReference (act : Except Error PipelineActivity) : ResourceReference :=
  match act with
  | .ok act => { Name := act.Name, Kind := act.Kind, UID := act.UID, APIVersion := act.APIVersion }
  | .error _ => {}

/-- The detail written on the create and on the update path. -/
def newStatusDetails (url sha pullRequest context : String) (actRef : ResourceReference) :
    CommitStatusDetails :=
  { Checked := false,
    Commit := { GitURL := url, PullRequest := pullRequest, SHA := sha },
    PipelineActivity := actRef,
    Context := context }

/-- The assignment `status.Spec.Items[i] = statusDetails`. -/
def setDetail (status : CommitStatus) (i : Nat) (statusDetails : CommitStatusDetails) :
    CommitStatus :=
  { status with Spec := { Items := status.Spec.Items.set i statusDetails } }

/-- The method `UpsertCommitStatusCheck`. The result is the returned error
(`none` for nil) and the state after the call. -/
def UpsertCommitStatusCheck (env : Env) (name pipelineActName url sha pullRequest context : String)
    (w : World) : Option Error × World :=
  if name ≠ "" then
    let ((status, err), w) := getCommitStatus name w
    let create : Bool := err.isSome
    let (act, w) := getPipelineActivity env pipelineActName w
    let actRef := activityReference act
    let possible := possibleStatusDetails sha status.Spec.Items
    if possible.length ≠ 1 ∧ possible.length ≠ 0 then
      (some (.moreThanOne possible.length sha possible), w)
    else
      let statusDetails : CommitStatusDetails :=
        if possible.length = 1 then status.Spec.Items.getD (possible.headD 0) {} else {}
      let update : Bool :=
        possible.length = 1 ∧ statusDetails.PipelineActivity.UID ≠ actRef.UID
      let statusDetails : CommitStatusDetails :=
        if create ∨ update then newStatusDetails url sha pullRequest context actRef
        else statusDetails
      if create then
        let status : CommitStatus :=
          { Name := name,
            Labels := [("lastCommitSha", sha)],
            Spec := { Items := [statusDetails] } }
        createCommitStatus env status w
      else if update then
        let status := setDetail status (possible.headD 0) statusDetails
        updateCommitStatus env status w
      else
        (none, w)
  else
    (none, w)

/-! ## `update` and `onCommitStatus` -/

/-- The call `os.Setenv`: traced, and failing as the environment says. -/
def setenv (env : Env) (key value : String) (w : World) : Option Error × World :=
  (env.Setenv key value, w.record (.setenv key value))

/-- The method `getGitProvider`: parse the url, load the auth configuration,
find the server kind, export the credentials of the first user of the first
server of that kind that has a user, then create the provider. -/
def getGitProvider (env : Env) (url : String) (w : World) :
    Except Error (GitProvider × GitRepositoryInfo) × World :=
  match env.ParseGitURL url with
  | .error err => (.error err, w)
  | .ok gitInfo =>
    match env.CreateGitAuthConfigService with
    | .error err => (.error err, w)
    | .ok servers =>
      match env.GitServerKind gitInfo with
      | .error err => (.error err, w)
      | .ok gitKind =>
        match servers.find? (fun server => server.Kind == gitKind && decide (server.Users.length ≥ 1)) with
        | some server =>
          let username := (server.Users.headD {}).Username
          let apiToken := (server.Users.headD {}).ApiToken
          match setenv env "GIT_USERNAME" username w with
          | (some err, w) => (.error err, w)
          | (none, w) =>
            match setenv env "GIT_API_TOKEN" apiToken w with
            | (some err, w) => (.error err, w)
            | (none, w) => (env.createGitProviderForURLWithoutKind url, w)
        | none => (env.createGitProviderForURLWithoutKind url, w)

/-- Modelled from the spec: `extensions.NotifyCommitStatus`, declared outside the
file (`Notify(commitRef, state, description, comment, context) → error`): the
call is traced with its arguments as passed, and the error is the one of the
environment. -/
def NotifyCommitStatus (env : Env) (commit : CommitStatusCommitReference)
    (state targetUrl description comment context : String)
    (gitProvider : GitProvider) (gitRepoInfo : GitRepositoryInfo) (w : World) :
    Option Error × World :=
  (env.NotifyCommitStatus commit state targetUrl description comment context gitProvider gitRepoInfo,
    w.record (.notifyCommitStatus commit state targetUrl description comment context
      gitProvider gitRepoInfo))

/-- The line `fmt.Fprintf` adds to the comment builder for a failing sub-check. -/
def commentRow (c : CommitStatusItem) (sha : String) : String :=
  c.Name ++ " | " ++ c.Description ++ " | " ++ sha ++ " | TODO | `/test this`\n"

/-- One step of the loop over the sub-checks in `update`, on the pair
(`pass`, contents of `commentBuilder`). -/
def checkItem (sha : String) (acc : Bool × String) (c : CommitStatusItem) : Bool × String :=
  if !c.Pass then (false, acc.2 ++ commentRow c sha) else acc

/-- The part of the failure comment before the rows. -/
def commentHeader : String :=
  "The following commit statusDetails checks **failed**, say `/retest` to rerun them all:\n" ++
  "\n" ++
  "Name | Description | Commit | Details | Rerun command\n" ++
  "--- | --- | --- | --- | --- \n"

/-- The part of the failure comment after the rows (`%%` of the format string
is printed as `%`). -/
def commentFooter : String :=
  "\n" ++
  "<details>\n" ++
  "\n" ++
  "Instructions for interacting with me using PR comments are available [here](https://git.k8s.io/community/contributors/guide/pull-requests.md).  If you have questions or suggestions related to my behavior, please file an issue against the [kubernetes/test-infra](https://github.com/kubernetes/test-infra/issues/new?title=Prow%20issue:) repository. I understand the commands that are listed [here](https://go.k8s.io/bot-commands).\n" ++
  "</details>"

/-- The method `update`. -/
def update (env : Env) (statusDetails : CommitStatusDetails) (w : World) : Option Error × World :=
  match getGitProvider env statusDetails.Commit.GitURL w with
  | (.error err, w) => (some err, w)
  | (.ok (gitProvider, gitRepoInfo), w) =>
    if statusDetails.Checked then
      let (pass, commentBuilder) :=
        statusDetails.Items.foldl (checkItem statusDetails.Commit.SHA) (true, "")
      if pass then
        NotifyCommitStatus env statusDetails.Commit "success" "" "%s completed successfully" ""
          statusDetails.Context gitProvider gitRepoInfo w
      else
        let comment := commentHeader ++ commentBuilder ++ commentFooter
        NotifyCommitStatus env statusDetails.Commit "failure" ""
          "Some commit statusDetails checks failed" comment statusDetails.Context
          gitProvider gitRepoInfo w
    else
      NotifyCommitStatus env statusDetails.Commit "pending" ""
        ("Waiting for " ++ statusDetails.Context ++ " to complete") ""
        statusDetails.Context gitProvider gitRepoInfo w

/-- The loop of `onCommitStatus` over the details of a record. -/
def onCommitStatusItems (env : Env) : List CommitStatusDetails → World → Option Error × World
  | [], w => (none, w)
  | v :: rest, w =>
    match update env v w with
    | (some err, w) =>
      match getGitProvider env v.Commit.GitURL w with
      | (.error err1, w) => (some err1, w)
      | (.ok (gitProvider, gitRepoInfo), w) =>
        match NotifyCommitStatus env v.Commit "error" ""
            "Internal Error performing commit status updates" "" v.Context
            gitProvider gitRepoInfo w with
        | (some _, w) => (some err, w)
        | (none, w) => (some err, w)
    | (none, w) => onCommitStatusItems env rest w

/-- The method `onCommitStatus`. -/
def onCommitStatus (env : Env) (check : CommitStatus) (w : World) : Option Error × World :=
  onCommitStatusItems env check.Spec.Items w

/-! ## `onPod` -/

/-- The local variables `onPod` fills from the environment of the
initialization containers. -/
structure BuildVars where
  org : String := ""
  repo : String := ""
  pullRequest : String := ""
  pullPullSha : String := ""
  pullBaseSha : String := ""
  buildNumber : String := ""
  sourceUrl : String := ""
  branch : String := ""
deriving DecidableEq, Repr, Inhabited

/-- The `switch e.Name` of `onPod`. -/
def setVar (v : BuildVars) (e : EnvVar) : BuildVars :=
  if e.Name = "REPO_OWNER" then { v with org := e.Value }
  else if e.Name = "REPO_NAME" then { v with repo := e.Value }
  else if e.Name = "PULL_NUMBER" then { v with pullRequest := "PR-" ++ e.Value }
  else if e.Name = "PULL_PULL_SHA" then { v with pullPullSha := e.Value }
  else if e.Name = "PULL_BASE_SHA" then { v with pullBaseSha := e.Value }
  else if e.Name = "JX_BUILD_NUMBER" then { v with buildNumber := e.Value }
  else if e.Name = "SOURCE_URL" then { v with sourceUrl := e.Value }
  else if e.Name = "PULL_BASE_REF" then { v with branch := e.Value }
  else v

/-- The two nested loops of `onPod` over the initialization containers and
their environment. -/
def scanInitContainers (pod : Pod) : BuildVars :=
  pod.Spec.InitContainers.foldl (fun v initContainer => initContainer.Env.foldl setVar v) {}

/-- The value `labels[key]` of a Go map: the empty string for a missing key. -/
def labelValue (labels : List (String × String)) (key : String) : String :=
  (labels.lookup key).getD ""

/-- The values of `sha`, `pullRequest` and `branch` after the `if pullRequest
== "PR-"` of `onPod`. -/
def resolveSha (v : BuildVars) : BuildVars × String :=
  if v.pullRequest = "PR-" then ({ v with pullRequest := "" }, v.pullBaseSha)
  else ({ v with branch := v.pullRequest }, v.pullPullSha)

/-- The loop of `onPod` over the required contexts. -/
def onPodContexts (env : Env) (v : BuildVars) (sha : String) :
    List String → World → Option Error × World
  | [], w => (none, w)
  | ctx :: rest, w =>
    if v.pullRequest ≠ "" then
      let name := env.ToValidName (v.org ++ "-" ++ v.repo ++ "-" ++ v.branch ++ "-" ++ ctx)
      let pipelineActName :=
        env.ToValidName (v.org ++ "-" ++ v.repo ++ "-" ++ v.branch ++ "-" ++ v.buildNumber)
      match UpsertCommitStatusCheck env name pipelineActName v.sourceUrl sha v.pullRequest ctx w with
      | (some err, w) => (some err, w)
      | (none, w) => onPodContexts env v sha rest w
    else
      onPodContexts env v sha rest w

/-- The method `onPod`; `none` is Go's nil pod. -/
def onPod (env : Env) (pod : Option Pod) (w : World) : Option Error × World :=
  match pod with
  | none => (none, w)
  | some pod =>
    match pod.Labels with
    | none => (none, w)
    | some labels =>
      let buildName := labelValue labels env.LabelBuildName
      let buildName := if buildName = "" then labelValue labels env.LabelOldBuildName else buildName
      if buildName ≠ "" then
        let v := scanInitContainers pod
        if v.org ≠ "" ∧ v.repo ≠ "" ∧ v.buildNumber ≠ "" ∧
            (v.pullBaseSha ≠ "" ∨ v.pullPullSha ≠ "") then
          let (v, sha) := resolveSha v
          if sha = "" then
            (none, w)
          else
            let w := w.record (.getBranchProtectionContexts v.org v.repo)
            match env.GetBranchProtectionContexts v.org v.repo with
            | .error err => (some err, w)
            | .ok contexts => onPodContexts env v sha contexts w
        else
          (none, w)
      else
        (none, w)

/-! ## Predicates and example data used in the statements -/

/-- No two details of the record have the same commit sha. -/
def uniqueShas (r : CommitStatus) : Prop :=
  (r.Spec.Items.map (fun d => d.Commit.SHA)).Nodup

instance (r : CommitStatus) : Decidable (uniqueShas r) := by
  unfold uniqueShas; infer_instance

/-- The uniqueness invariant of the store: every stored record has no two
details with the same commit sha. -/
def storeUnique (w : World) : Prop :=
  ∀ r ∈ w.commitStatuses, uniqueShas r

instance (w : World) : Decidable (storeUnique w) := by
  unfold storeUnique; infer_instance

/-- The record Get returns for `name`, if one is stored. -/
def storedRecord (w : World) (name : String) : Option CommitStatus :=
  w.commitStatuses.find? (fun s => s.Name == name)

/-- The details of a record whose commit sha is `sha`. -/
def detailsFor (sha : String) (r : CommitStatus) : List CommitStatusDetails :=
  r.Spec.Items.filter (fun d => decide (d.Commit.SHA = sha))

/-- The state after the two reads every call of `UpsertCommitStatusCheck` with a
non-empty name makes: the store as it was, and the two reads added to the
trace. -/
def afterReads (w : World) (name pipelineActName : String) : World :=
  { commitStatuses := w.commitStatuses,
    calls := w.calls ++ [.getCommitStatus name, .getPipelineActivity pipelineActName] }

/-- The notifier calls of a trace, in order. -/
def notifications (calls : List Call) : List Call :=
  calls.filter (fun c => match c with
    | .notifyCommitStatus .. => true
    | _ => false)

/-- An environment in which every collaborator answers without error. -/
def exampleEnv : Env :=
  { LabelBuildName := "build.knative.dev/buildName",
    LabelOldBuildName := "build-name",
    ToValidName := fun s => s,
    getPipelineActivity := fun n =>
      .ok { Name := n, Kind := "PipelineActivity", UID := "uid-" ++ n, APIVersion := "jenkins.io/v1" },
    createFault := fun _ => none,
    updateFault := fun _ => none,
    GetBranchProtectionContexts := fun _ _ => .ok ["build", "lint"],
    ParseGitURL := fun u => .ok { URL := u },
    CreateGitAuthConfigService :=
      .ok [{ Kind := "github", Users := [{ Username := "bot", ApiToken := "token" }] }],
    GitServerKind := fun _ => .ok "github",
    Setenv := fun _ _ => none,
    createGitProviderForURLWithoutKind := fun u => .ok ({ Kind := "github" }, { URL := u }),
    NotifyCommitStatus := fun _ _ _ _ _ _ _ _ => none }

/-- A detail for sha `sha0` that refers to the activity with UID `uid-act0`. -/
def exampleDetail0 : CommitStatusDetails :=
  { PipelineActivity :=
      { Name := "act0", Kind := "PipelineActivity", UID := "uid-act0",
        APIVersion := "jenkins.io/v1" },
    Checked := true,
    Items := [{ Name := "unit", Description := "unit tests", Pass := true }],
    Commit := { GitURL := "https://github.com/o/r", PullRequest := "PR-1", SHA := "sha0" },
    Context := "build" }

/-- A detail for sha `sha1` that refers to the activity with UID `uid-act0`,
checked, with one passing and one failing sub-check. -/
def exampleDetail1 : CommitStatusDetails :=
  { PipelineActivity :=
      { Name := "act0", Kind := "PipelineActivity", UID := "uid-act0",
        APIVersion := "jenkins.io/v1" },
    Checked := true,
    Items :=
      [{ Name := "unit", Description := "unit tests", Pass := true },
       { Name := "lint", Description := "style", Pass := false }],
    Commit := { GitURL := "https://github.com/o/r", PullRequest := "PR-1", SHA := "sha1" },
    Context := "build" }

/-- A record named `r` with a detail for `sha0` and a detail for `sha1`. -/
def exampleRecord : CommitStatus :=
  { Name := "r", Labels := [("lastCommitSha", "sha0")],
    Spec := { Items := [exampleDetail0, exampleDetail1] } }

/-- A store holding the example record only. -/
def exampleWorld : World :=
  { commitStatuses := [exampleRecord] }

/-- A record named `r` that holds two details for `sha1`. -/
def duplicateRecord : CommitStatus :=
  { Name := "r", Labels := [("lastCommitSha", "sha1")],
    Spec := { Items := [exampleDetail1, exampleDetail0, exampleDetail1] } }

/-- A store holding the record with the duplicated sha only. -/
def duplicateWorld : World :=
  { commitStatuses := [duplicateRecord] }

/-- The rows of the failure comment as the specification words them: in
sub-check order, one row for each failing sub-check and none for a passing
one. -/
def failingRows (sha : String) : List CommitStatusItem → String
  | [] => ""
  | c :: rest =>
    if c.Pass then failingRows sha rest else commentRow c sha ++ failingRows sha rest

/-- An environment in which the git url cannot be parsed, so that no git
provider is resolved. -/
def unresolvedEnv : Env :=
  { exampleEnv with ParseGitURL := fun _ => .error (.external "cannot parse git url") }

/-- An environment in which the notifier fails on a call with state `error`
with one error, on a call with state `failure` with another, and accepts any
other call. -/
def failingNotifyEnv : Env :=
  { exampleEnv with
    NotifyCommitStatus := fun _ state _ _ _ _ _ _ =>
      if state = "error" then some (.external "notify failed")
      else if state = "failure" then some (.external "update failed")
      else none }

/-- A detail as `UpsertCommitStatusCheck` writes it. -/
def exampleDetail2 : CommitStatusDetails :=
  newStatusDetails "https://github.com/o/r" "sha2" "PR-1" "build"
    (activityReference (exampleEnv.getPipelineActivity "act1"))

/-- A checked detail whose sub-checks all pass. -/
def exampleDetail3 : CommitStatusDetails :=
  { exampleDetail0 with
    Items :=
      [{ Name := "unit", Description := "unit tests", Pass := true },
       { Name := "lint", Description := "style", Pass := true }] }

/-- A build pod of a pull request whose initialization container declares every
variable but `JX_BUILD_NUMBER`. -/
def podWithoutBuildNumber : Pod :=
  { Name := "build-pod",
    Labels := some [("build-name", "b1")],
    Spec :=
      { InitContainers :=
          [{ Env :=
              [{ Name := "REPO_OWNER", Value := "o" },
               { Name := "REPO_NAME", Value := "r" },
               { Name := "PULL_NUMBER", Value := "1" },
               { Name := "PULL_PULL_SHA", Value := "sha1" },
               { Name := "PULL_BASE_SHA", Value := "sha0" },
               { Name := "SOURCE_URL", Value := "https://github.com/o/r" },
               { Name := "PULL_BASE_REF", Value := "master" }] }] } }

/-- A record whose first detail is pending and whose second detail has a failing
sub-check. -/
def exampleCheck : CommitStatus :=
  { Name := "r", Spec := { Items := [exampleDetail2, exampleDetail1, exampleDetail0] } }

/-- A build pod with the label `build-name` and one initialization container
that declares the given environment. -/
def buildPod (vars : List EnvVar) : Pod :=
  { Name := "build-pod",
    Labels := some [("build-name", "b1")],
    Spec := { InitContainers := [{ Env := vars }] } }

/-- A build pod of pull request 1: every variable is declared. -/
def pullRequestPod : Pod :=
  buildPod
    [{ Name := "REPO_OWNER", Value := "o" },
     { Name := "REPO_NAME", Value := "r" },
     { Name := "PULL_NUMBER", Value := "1" },
     { Name := "PULL_PULL_SHA", Value := "sha1" },
     { Name := "PULL_BASE_SHA", Value := "sha0" },
     { Name := "JX_BUILD_NUMBER", Value := "3" },
     { Name := "SOURCE_URL", Value := "https://github.com/o/r" },
     { Name := "PULL_BASE_REF", Value := "master" }]

/-- A build pod of a branch build that declares `PULL_NUMBER` with an empty
value. -/
def branchPod : Pod :=
  buildPod
    [{ Name := "REPO_OWNER", Value := "o" },
     { Name := "REPO_NAME", Value := "r" },
     { Name := "PULL_NUMBER", Value := "" },
     { Name := "PULL_BASE_SHA", Value := "sha0" },
     { Name := "JX_BUILD_NUMBER", Value := "3" },
     { Name := "SOURCE_URL", Value := "https://github.com/o/r" },
     { Name := "PULL_BASE_REF", Value := "master" }]

/-- A build pod of a branch build that does not declare `PULL_NUMBER`. -/
def podWithoutPullNumber : Pod :=
  buildPod
    [{ Name := "REPO_OWNER", Value := "o" },
     { Name := "REPO_NAME", Value := "r" },
     { Name := "PULL_BASE_SHA", Value := "sha0" },
     { Name := "JX_BUILD_NUMBER", Value := "3" },
     { Name := "SOURCE_URL", Value := "https://github.com/o/r" },
     { Name := "PULL_BASE_REF", Value := "master" }]

/-- The guards a pod passes before `onPod` resolves the sha: it has labels, one
of the two build-name labels is non-empty, and the environment yields a
non-empty owner, repo and build number and at least one non-empty sha. -/
def passesGuard (env : Env) (pod : Pod) : Prop :=
  (∃ labels, pod.Labels = some labels ∧
    (labelValue labels env.LabelBuildName ≠ "" ∨ labelValue labels env.LabelOldBuildName ≠ "")) ∧
  (scanInitContainers pod).org ≠ "" ∧ (scanInitContainers pod).repo ≠ "" ∧
  (scanInitContainers pod).buildNumber ≠ "" ∧
  ((scanInitContainers pod).pullBaseSha ≠ "" ∨ (scanInitContainers pod).pullPullSha ≠ "")

/-- The effective sha of a pod: the value of `sha` after the resolution. -/
def effectiveSha (pod : Pod) : String :=
  (resolveSha (scanInitContainers pod)).2

/-- The variables of a pod after the resolution: `branch` is the effective
branch, `pullRequest` the pull-request identifier or the empty string. -/
def resolvedVars (pod : Pod) : BuildVars :=
  (resolveSha (scanInitContainers pod)).1

/-- The record name `onPod` derives from owner, repo, branch and context. -/
def recordName (env : Env) (v : BuildVars) (ctx : String) : String :=
  env.ToValidName (v.org ++ "-" ++ v.repo ++ "-" ++ v.branch ++ "-" ++ ctx)

/-- The pipeline-activity name `onPod` derives from owner, repo, branch and
build number. -/
def activityName (env : Env) (v : BuildVars) : String :=
  env.ToValidName (v.org ++ "-" ++ v.repo ++ "-" ++ v.branch ++ "-" ++ v.buildNumber)

/-- One step of the sequence of upserts as the specification words it: once an
upsert has returned an error nothing more is done; otherwise
`UpsertCommitStatusCheck` is invoked for the context, with the derived record
and activity names, the source url, the resolved sha and the pull-request
identifier. -/
def upsertStep (env : Env) (v : BuildVars) (sha : String) (acc : Option Error × World)
    (ctx : String) : Option Error × World :=
  match acc with
  | (some err, w) => (some err, w)
  | (none, w) =>
    UpsertCommitStatusCheck env (recordName env v ctx) (activityName env v) v.sourceUrl sha
      v.pullRequest ctx w

/-- The record names read from the store in a trace, in order. -/
def statusReads (calls : List Call) : List String :=
  calls.filterMap (fun c => match c with
    | .getCommitStatus name => some name
    | _ => none)

/-- The pipeline-activity names looked up in a trace, in order. -/
def activityReads (calls : List Call) : List String :=
  calls.filterMap (fun c => match c with
    | .getPipelineActivity name => some name
    | _ => none)

/-- An environment in which every Create fails. -/
def failingCreateEnv : Env :=
  { exampleEnv with createFault := fun _ => some (.external "create failed") }

/-- An environment in which the lookup of the pipeline activity fails. -/
def failingLookupEnv : Env :=
  { exampleEnv with getPipelineActivity := fun n => .error (.notFound n) }

/-- A record named `r` whose detail for `sha1` refers to no pipeline
activity. -/
def unreferencedRecord : CommitStatus :=
  { Name := "r",
    Spec := { Items := [exampleDetail0, { exampleDetail1 with PipelineActivity := {} }] } }

/-- A store holding only the record whose detail for `sha1` refers to no
pipeline activity. -/
def unreferencedWorld : World :=
  { commitStatuses := [unreferencedRecord] }

/-- A build pod of pull request 1 that declares `PULL_BASE_SHA` and does not
declare `PULL_PULL_SHA`. -/
def podWithoutPullSha : Pod :=
  buildPod
    [{ Name := "REPO_OWNER", Value := "o" },
     { Name := "REPO_NAME", Value := "r" },
     { Name := "PULL_NUMBER", Value := "1" },
     { Name := "PULL_BASE_SHA", Value := "sha0" },
     { Name := "JX_BUILD_NUMBER", Value := "3" },
     { Name := "SOURCE_URL", Value := "https://github.com/o/r" },
     { Name := "PULL_BASE_REF", Value := "master" }]

/-- An environment in which the Create of the record of context `lint` fails
and every other write succeeds. -/
def failingLintEnv : Env :=
  { exampleEnv with
    createFault := fun s =>
      if s.Name = "o-r-PR-1-lint" then some (.external "create failed") else none,
    GetBranchProtectionContexts := fun _ _ => .ok ["build", "lint", "test"] }

/-- The notifier calls of a trace whose state is `error`, in order. -/
def errorNotifications (calls : List Call) : List Call :=
  calls.filter (fun c => match c with
    | .notifyCommitStatus _ state _ _ _ _ _ _ => state == "error"
    | _ => false)

/-- Commit, state and context of every notifier call of a trace, in order. -/
def notified (calls : List Call) : List (CommitStatusCommitReference × String × String) :=
  calls.filterMap (fun c => match c with
    | .notifyCommitStatus commit state _ _ _ context _ _ => some (commit, state, context)
    | _ => none)

/-- The state of a detail as the specification words it, from the checked flag
and the pass flags of the sub-checks only: pending when not checked, success
when checked and every sub-check passes, failure otherwise. -/
def expectedState (checked : Bool) (passes : List Bool) : String :=
  if checked then (if passes.all id then "success" else "failure") else "pending"

/-! ## Lemmas on the scan for the sha -/

theorem possibleFrom_length (sha : String) (items : List CommitStatusDetails) (i : Nat) :
    (possibleStatusDetailsFrom sha i items).length =
      (items.filter (fun d => decide (d.Commit.SHA = sha))).length := by
  induction items generalizing i with
  | nil => rfl
  | cons v rest ih =>
    by_cases h : v.Commit.SHA = sha
    · simp [possibleStatusDetailsFrom, h, ih]
    · simp [possibleStatusDetailsFrom, h, ih]

theorem possibleFrom_mem (sha : String) (items : List CommitStatusDetails) (i k : Nat)
    (hk : k ∈ possibleStatusDetailsFrom sha i items) :
    i ≤ k ∧ ∃ d, items[k - i]? = some d ∧ d.Commit.SHA = sha := by
  induction items generalizing i with
  | nil => simp [possibleStatusDetailsFrom] at hk
  | cons v rest ih =>
    by_cases h : v.Commit.SHA = sha
    · simp only [possibleStatusDetailsFrom, h, if_true, List.mem_cons] at hk
      rcases hk with rfl | hk
      · exact ⟨le_refl _, v, by simp, h⟩
      · obtain ⟨hle, d, hd, hs⟩ := ih (i + 1) hk
        refine ⟨by omega, d, ?_, hs⟩
        have : k - i = (k - (i + 1)) + 1 := by omega
        rw [this]; simpa using hd
    · simp only [possibleStatusDetailsFrom, h, if_false] at hk
      obtain ⟨hle, d, hd, hs⟩ := ih (i + 1) hk
      refine ⟨by omega, d, ?_, hs⟩
      have : k - i = (k - (i + 1)) + 1 := by omega
      rw [this]; simpa using hd

theorem possibleFrom_set (sha : String) (items : List CommitStatusDetails) (i j : Nat)
    (d : CommitStatusDetails)
    (h : ∀ d0, items[j]? = some d0 → (d0.Commit.SHA = sha ↔ d.Commit.SHA = sha)) :
    possibleStatusDetailsFrom sha i (items.set j d) = possibleStatusDetailsFrom sha i items := by
  induction items generalizing i j with
  | nil => rfl
  | cons v rest ih =>
    cases j with
    | zero =>
      have hv := h v (by simp)
      by_cases hd : d.Commit.SHA = sha
      · simp [possibleStatusDetailsFrom, hd, hv.mpr hd]
      · have : ¬ v.Commit.SHA = sha := fun hvs => hd (hv.mp hvs)
        simp [possibleStatusDetailsFrom, hd, this]
    | succ j =>
      have := ih (i + 1) j (fun d0 hd0 => h d0 (by simpa using hd0))
      simp [possibleStatusDetailsFrom, this]

theorem possibleFrom_singleton (sha : String) (items : List CommitStatusDetails) (i j : Nat)
    (d : CommitStatusDetails) (hj : items[j]? = some d) (hd : d.Commit.SHA = sha)
    (huniq : ∀ k d0, items[k]? = some d0 → d0.Commit.SHA = sha → k = j) :
    possibleStatusDetailsFrom sha i items = [i + j] := by
  induction items generalizing i j with
  | nil => simp at hj
  | cons v rest ih =>
    cases j with
    | zero =>
      have hv : v = d := by simpa using hj
      subst hv
      have hrest : ∀ d0 ∈ rest, ¬ d0.Commit.SHA = sha := by
        intro d0 hmem hs
        obtain ⟨k, hk, hkd⟩ := List.getElem_of_mem hmem
        have := huniq (k + 1) d0 (by simp [hk, hkd]) hs
        omega
      have hlen : (possibleStatusDetailsFrom sha (i + 1) rest).length = 0 := by
        rw [possibleFrom_length, List.length_eq_zero, List.filter_eq_nil_iff]
        intro d0 hmem; simpa using hrest d0 hmem
      simp [possibleStatusDetailsFrom, hd, List.length_eq_zero.mp hlen]
    | succ j =>
      have hv : ¬ v.Commit.SHA = sha := by
        intro hs
        have := huniq 0 v (by simp) hs
        omega
      have := ih (i + 1) j (by simpa using hj) (fun k d0 hk hs => by
        have := huniq (k + 1) d0 (by simpa using hk) hs
        omega)
      simp only [possibleStatusDetailsFrom, hv, if_false, this]
      congr 1; omega

theorem map_sha_set (items : List CommitStatusDetails) (j : Nat) (d d0 : CommitStatusDetails)
    (hj : items[j]? = some d0) (hs : d0.Commit.SHA = d.Commit.SHA) :
    (items.set j d).map (fun x => x.Commit.SHA) = items.map (fun x => x.Commit.SHA) := by
  induction items generalizing j with
  | nil => rfl
  | cons v rest ih =>
    cases j with
    | zero =>
      have hv : v = d0 := by simpa using hj
      simp [hv, hs]
    | succ j => simp [ih j (by simpa using hj)]

/-! ## Lemmas on the store -/

theorem any_of_find (l : List CommitStatus) (name : String) (s : CommitStatus)
    (h : l.find? (fun x => x.Name == name) = some s) :
    l.any (fun x => x.Name == name) = true := by
  have hm := List.mem_of_find?_eq_some h
  have hp := List.find?_some h
  exact List.any_eq_true.mpr ⟨s, hm, hp⟩

theorem any_of_find_none (l : List CommitStatus) (name : String)
    (h : l.find? (fun x => x.Name == name) = none) :
    l.any (fun x => x.Name == name) = false := by
  rw [List.find?_eq_none] at h
  rw [List.any_eq_false]
  intro x hx; simpa using h x hx

theorem name_of_find (l : List CommitStatus) (name : String) (s : CommitStatus)
    (h : l.find? (fun x => x.Name == name) = some s) : s.Name = name := by
  simpa using List.find?_some h

theorem mem_replaceRecord (status : CommitStatus) (l : List CommitStatus) (r : CommitStatus)
    (h : r ∈ replaceRecord status l) : r = status ∨ r ∈ l := by
  induction l with
  | nil => simp [replaceRecord] at h
  | cons s rest ih =>
    by_cases hn : (s.Name == status.Name) = true
    · simp only [replaceRecord, hn, if_true, List.mem_cons] at h
      rcases h with h | h
      · exact Or.inl h
      · exact Or.inr (List.mem_cons_of_mem _ h)
    · simp only [replaceRecord, hn, Bool.false_eq_true, if_false, List.mem_cons] at h
      rcases h with h | h
      · exact Or.inr (List.mem_cons.mpr (Or.inl h))
      · rcases ih h with h2 | h2
        · exact Or.inl h2
        · exact Or.inr (List.mem_cons_of_mem _ h2)

theorem find_replaceRecord (status : CommitStatus) (l : List CommitStatus)
    (h : l.any (fun x => x.Name == status.Name) = true) :
    (replaceRecord status l).find? (fun x => x.Name == status.Name) = some status := by
  induction l with
  | nil => simp at h
  | cons s rest ih =>
    by_cases hn : (s.Name == status.Name) = true
    · simp [replaceRecord, hn]
    · have hr : rest.any (fun x => x.Name == status.Name) = true := by
        simpa [List.any_cons, hn] using h
      simp [replaceRecord, hn, List.find?_cons, ih hr]

theorem createCommitStatus_ok (env : Env) (status : CommitStatus) (w : World)
    (h : (createCommitStatus env status w).1 = none) :
    (createCommitStatus env status w).2.commitStatuses = w.commitStatuses ++ [status] := by
  unfold createCommitStatus at h ⊢
  cases hf : env.createFault status with
  | some e => simp [hf] at h
  | none =>
    by_cases hany : (w.record (.createCommitStatus status)).commitStatuses.any
        (fun s => s.Name == status.Name) = true
    · simp [hf, hany] at h
    · simp only [hf, hany, if_false]
      rfl

theorem createCommitStatus_store (env : Env) (status : CommitStatus) (w : World) :
    (createCommitStatus env status w).2.commitStatuses = w.commitStatuses ∨
      (createCommitStatus env status w).2.commitStatuses = w.commitStatuses ++ [status] := by
  unfold createCommitStatus
  cases hf : env.createFault status with
  | some e => exact Or.inl rfl
  | none =>
    by_cases hany : (w.record (.createCommitStatus status)).commitStatuses.any
        (fun s => s.Name == status.Name) = true
    · simp only [hany, if_true]; exact Or.inl rfl
    · simp only [hany, if_false]; exact Or.inr rfl

theorem createCommitStatus_calls (env : Env) (status : CommitStatus) (w : World) :
    (createCommitStatus env status w).2.calls = w.calls ++ [.createCommitStatus status] := by
  unfold createCommitStatus
  cases hf : env.createFault status with
  | some e => rfl
  | none =>
    by_cases hany : (w.record (.createCommitStatus status)).commitStatuses.any
        (fun s => s.Name == status.Name) = true
    · simp only [hany, if_true]; rfl
    · simp only [hany, if_false]; rfl

theorem updateCommitStatus_ok (env : Env) (status : CommitStatus) (w : World)
    (h : (updateCommitStatus env status w).1 = none) :
    (updateCommitStatus env status w).2.commitStatuses =
      replaceRecord status w.commitStatuses := by
  unfold updateCommitStatus at h ⊢
  cases hf : env.updateFault status with
  | some e => simp [hf] at h
  | none =>
    by_cases hany : (w.record (.updateCommitStatus status)).commitStatuses.any
        (fun s => s.Name == status.Name) = true
    · simp only [hany, if_true]; rfl
    · simp [hf, hany] at h

theorem updateCommitStatus_store (env : Env) (status : CommitStatus) (w : World) :
    (updateCommitStatus env status w).2.commitStatuses = w.commitStatuses ∨
      (updateCommitStatus env status w).2.commitStatuses =
        replaceRecord status w.commitStatuses := by
  unfold updateCommitStatus
  cases hf : env.updateFault status with
  | some e => exact Or.inl rfl
  | none =>
    by_cases hany : (w.record (.updateCommitStatus status)).commitStatuses.any
        (fun s => s.Name == status.Name) = true
    · simp only [hany, if_true]; exact Or.inr rfl
    · simp only [hany, if_false]; exact Or.inl rfl

theorem updateCommitStatus_calls (env : Env) (status : CommitStatus) (w : World) :
    (updateCommitStatus env status w).2.calls = w.calls ++ [.updateCommitStatus status] := by
  unfold updateCommitStatus
  cases hf : env.updateFault status with
  | some e => rfl
  | none =>
    by_cases hany : (w.record (.updateCommitStatus status)).commitStatuses.any
        (fun s => s.Name == status.Name) = true
    · simp only [hany, if_true]; rfl
    · simp only [hany, if_false]; rfl

theorem updateCommitStatus_succeeds (env : Env) (status : CommitStatus) (w : World)
    (hf : env.updateFault status = none)
    (hany : w.commitStatuses.any (fun s => s.Name == status.Name) = true) :
    (updateCommitStatus env status w).1 = none := by
  unfold updateCommitStatus
  have : (w.record (.updateCommitStatus status)).commitStatuses.any
      (fun s => s.Name == status.Name) = true := hany
  simp only [hf, this, if_true]

/-! ## The branches of `UpsertCommitStatusCheck` -/

/-- The record written on the create path. -/
theorem upsert_absent (env : Env) (name pipelineActName url sha pullRequest context : String)
    (w : World) (hname : name ≠ "") (habs : storedRecord w name = none) :
    UpsertCommitStatusCheck env name pipelineActName url sha pullRequest context w =
      createCommitStatus env
        { Name := name, Labels := [("lastCommitSha", sha)],
          Spec := { Items := [newStatusDetails url sha pullRequest context
            (activityReference (env.getPipelineActivity pipelineActName))] } }
        (afterReads w name pipelineActName) := by
  unfold storedRecord at habs
  simp [UpsertCommitStatusCheck, getCommitStatus, getPipelineActivity, habs, hname,
    possibleStatusDetails, possibleStatusDetailsFrom, afterReads, World.record]

/-- The three outcomes when a record of that name is stored. -/
theorem upsert_present (env : Env) (name pipelineActName url sha pullRequest context : String)
    (w : World) (status : CommitStatus) (hname : name ≠ "")
    (hpres : storedRecord w name = some status) :
    UpsertCommitStatusCheck env name pipelineActName url sha pullRequest context w =
      if (possibleStatusDetails sha status.Spec.Items).length ≠ 1 ∧
          (possibleStatusDetails sha status.Spec.Items).length ≠ 0 then
        (some (.moreThanOne (possibleStatusDetails sha status.Spec.Items).length sha
          (possibleStatusDetails sha status.Spec.Items)), afterReads w name pipelineActName)
      else if (possibleStatusDetails sha status.Spec.Items).length = 1 ∧
          (status.Spec.Items.getD ((possibleStatusDetails sha status.Spec.Items).headD 0)
            {}).PipelineActivity.UID ≠
            (activityReference (env.getPipelineActivity pipelineActName)).UID then
        updateCommitStatus env
          (setDetail status ((possibleStatusDetails sha status.Spec.Items).headD 0)
            (newStatusDetails url sha pullRequest context
              (activityReference (env.getPipelineActivity pipelineActName))))
          (afterReads w name pipelineActName)
      else (none, afterReads w name pipelineActName) := by
  unfold storedRecord at hpres
  simp only [UpsertCommitStatusCheck, getCommitStatus, getPipelineActivity, hpres, hname,
    afterReads, World.record]
  by_cases h1 : (possibleStatusDetails sha status.Spec.Items).length = 1
  · by_cases h2 : (status.Spec.Items.getD ((possibleStatusDetails sha status.Spec.Items).headD 0)
        {}).PipelineActivity.UID =
        (activityReference (env.getPipelineActivity pipelineActName)).UID
    · simp_all
    · simp_all
  · by_cases h0 : (possibleStatusDetails sha status.Spec.Items).length = 0
    · simp [h0, hname]
    · simp [h1, h0, hname]

theorem possible_head (sha : String) (items : List CommitStatusDetails)
    (h1 : (possibleStatusDetails sha items).length = 1) :
    ∃ d0, items[(possibleStatusDetails sha items).headD 0]? = some d0 ∧ d0.Commit.SHA = sha := by
  obtain ⟨k, hk⟩ := List.length_eq_one.mp h1
  have hmem : k ∈ possibleStatusDetailsFrom sha 0 items := by
    have : possibleStatusDetailsFrom sha 0 items = [k] := hk
    rw [this]; exact List.mem_singleton_self k
  obtain ⟨_, d0, hd0, hs⟩ := possibleFrom_mem sha items 0 k hmem
  refine ⟨d0, ?_, hs⟩
  rw [hk]; simpa using hd0

theorem possible_setDetail (sha : String) (status : CommitStatus) (d : CommitStatusDetails)
    (hd : d.Commit.SHA = sha)
    (h1 : (possibleStatusDetails sha status.Spec.Items).length = 1) :
    possibleStatusDetails sha
      (setDetail status ((possibleStatusDetails sha status.Spec.Items).headD 0) d).Spec.Items =
      possibleStatusDetails sha status.Spec.Items := by
  obtain ⟨d0, hd0, hs⟩ := possible_head sha status.Spec.Items h1
  unfold possibleStatusDetails setDetail
  apply possibleFrom_set
  intro d1 hd1
  have : d1 = d0 := by
    unfold possibleStatusDetails at hd0
    rw [hd0] at hd1; exact (Option.some.inj hd1).symm
  rw [this]; exact ⟨fun _ => hd, fun _ => hs⟩

theorem getD_setDetail (sha : String) (status : CommitStatus) (d : CommitStatusDetails)
    (h1 : (possibleStatusDetails sha status.Spec.Items).length = 1) :
    (setDetail status ((possibleStatusDetails sha status.Spec.Items).headD 0) d).Spec.Items.getD
      ((possibleStatusDetails sha status.Spec.Items).headD 0) {} = d := by
  obtain ⟨d0, hd0, _⟩ := possible_head sha status.Spec.Items h1
  have hlt : (possibleStatusDetails sha status.Spec.Items).headD 0 < status.Spec.Items.length := by
    by_contra hge
    rw [List.getElem?_eq_none (by omega)] at hd0
    exact Option.noConfusion hd0
  unfold setDetail
  rw [List.getD_eq_getElem?_getD, List.getElem?_set_self hlt]
  rfl

/-- A call that finds a record with no detail for the sha, or with one detail
for the sha that already refers to the looked-up activity, only reads. -/
theorem upsert_noop (env : Env) (name pipelineActName url sha pullRequest context : String)
    (w : World) (status : CommitStatus) (hname : name ≠ "")
    (hpres : storedRecord w name = some status)
    (hle : (possibleStatusDetails sha status.Spec.Items).length ≤ 1)
    (huid : (possibleStatusDetails sha status.Spec.Items).length = 1 →
      (status.Spec.Items.getD ((possibleStatusDetails sha status.Spec.Items).headD 0)
        {}).PipelineActivity.UID =
        (activityReference (env.getPipelineActivity pipelineActName)).UID) :
    UpsertCommitStatusCheck env name pipelineActName url sha pullRequest context w =
      (none, afterReads w name pipelineActName) := by
  rw [upsert_present env name pipelineActName url sha pullRequest context w status hname hpres]
  rw [if_neg (by omega), if_neg (fun h => h.2 (huid h.1))]

theorem possibleFrom_mem_of (sha : String) (items : List CommitStatusDetails) (i k : Nat)
    (d0 : CommitStatusDetails) (hk : items[k]? = some d0) (hs : d0.Commit.SHA = sha) :
    i + k ∈ possibleStatusDetailsFrom sha i items := by
  induction items generalizing i k with
  | nil => simp at hk
  | cons v rest ih =>
    cases k with
    | zero =>
      have hv : v = d0 := by simpa using hk
      simp [possibleStatusDetailsFrom, hv, hs]
    | succ k =>
      have hrec := ih (i + 1) k (by simpa using hk)
      have heq : i + (k + 1) = i + 1 + k := by omega
      rw [heq]
      by_cases hv : v.Commit.SHA = sha
      · simp only [possibleStatusDetailsFrom, hv, if_true]
        exact List.mem_cons_of_mem _ hrec
      · simp only [possibleStatusDetailsFrom, hv, if_false]
        exact hrec

/-- The record sent on the update path holds one detail for the sha, the new
one. -/
theorem setDetail_detail_for_sha (sha : String) (status : CommitStatus)
    (d : CommitStatusDetails)
    (h1 : (possibleStatusDetails sha status.Spec.Items).length = 1)
    (d0 : CommitStatusDetails)
    (hmem : d0 ∈ (setDetail status
      ((possibleStatusDetails sha status.Spec.Items).headD 0) d).Spec.Items)
    (hs : d0.Commit.SHA = sha) : d0 = d := by
  obtain ⟨i, hi⟩ := List.length_eq_one.mp h1
  rw [hi] at hmem
  simp only [List.headD_cons, setDetail] at hmem
  obtain ⟨k, hk⟩ := List.getElem?_of_mem hmem
  by_cases hki : i = k
  · subst hki
    rw [List.getElem?_set_self'] at hk
    cases hitem : status.Spec.Items[i]? with
    | none => rw [hitem] at hk; exact Option.noConfusion hk
    | some x =>
      rw [hitem] at hk
      exact (Option.some.inj hk).symm
  · rw [List.getElem?_set_ne hki] at hk
    have hin := possibleFrom_mem_of sha status.Spec.Items 0 k d0 hk hs
    have hposs : possibleStatusDetailsFrom sha 0 status.Spec.Items = [i] := hi
    rw [hposs, Nat.zero_add, List.mem_singleton] at hin
    exact absurd hin.symm hki

/-- Every record `UpsertCommitStatusCheck` sends to Create or Update holds, for
the sha of the event, the new detail only. -/
theorem upsert_written (env : Env)
    (name pipelineActName url sha pullRequest context : String) (w : World) :
    ∃ extra,
      (UpsertCommitStatusCheck env name pipelineActName url sha pullRequest context w).2.calls =
        w.calls ++ extra ∧
      ∀ s, (Call.createCommitStatus s ∈ extra ∨ Call.updateCommitStatus s ∈ extra) →
        ∀ d0 ∈ s.Spec.Items, d0.Commit.SHA = sha →
          d0 = newStatusDetails url sha pullRequest context
            (activityReference (env.getPipelineActivity pipelineActName)) := by
  by_cases hname : name = ""
  · refine ⟨[], by simp [UpsertCommitStatusCheck, hname], ?_⟩
    intro s hs
    simp at hs
  · cases hrec : storedRecord w name with
    | none =>
      rw [upsert_absent env name pipelineActName url sha pullRequest context w hname hrec]
      refine ⟨[.getCommitStatus name, .getPipelineActivity pipelineActName,
        .createCommitStatus
          { Name := name, Labels := [("lastCommitSha", sha)],
            Spec := { Items := [newStatusDetails url sha pullRequest context
              (activityReference (env.getPipelineActivity pipelineActName))] } }], ?_, ?_⟩
      · rw [createCommitStatus_calls]
        simp [afterReads]
      · intro s hs d0 hd0 _
        simp only [List.mem_cons, List.mem_singleton, List.not_mem_nil, or_false, false_or,
          Call.createCommitStatus.injEq, reduceCtorEq] at hs
        rw [hs] at hd0
        simpa using hd0
    | some status =>
      rw [upsert_present env name pipelineActName url sha pullRequest context w status hname hrec]
      split
      · refine ⟨[.getCommitStatus name, .getPipelineActivity pipelineActName], rfl, ?_⟩
        intro s hs
        simp at hs
      · split
        · rename_i hupd
          refine ⟨[.getCommitStatus name, .getPipelineActivity pipelineActName,
            .updateCommitStatus
              (setDetail status ((possibleStatusDetails sha status.Spec.Items).headD 0)
                (newStatusDetails url sha pullRequest context
                  (activityReference (env.getPipelineActivity pipelineActName))))], ?_, ?_⟩
          · rw [updateCommitStatus_calls]
            simp [afterReads]
          · intro s hs d0 hd0 hsha
            simp only [List.mem_cons, List.mem_singleton, List.not_mem_nil, or_false, false_or,
              Call.updateCommitStatus.injEq, reduceCtorEq] at hs
            rw [hs] at hd0
            exact setDetail_detail_for_sha sha status _ hupd.1 d0 hd0 hsha
        · refine ⟨[.getCommitStatus name, .getPipelineActivity pipelineActName], rfl, ?_⟩
          intro s hs
          simp at hs

/-! ## Claims on `UpsertCommitStatusCheck` -/

/-- C1. Idempotency of `UpsertCommitStatusCheck`: for a non-empty record name,
when a first call returned without error, a second call with the same
arguments, run on the store the first call left and with the same answer of
the pipeline-activity lookup, returns no error, makes the two reads and
nothing else (no Create, no Update) and leaves the store as it was. -/
theorem upsert_idempotent (env env2 : Env)
    (name pipelineActName url sha pullRequest context : String) (w w2 : World)
    (hname : name ≠ "")
    (hact : env2.getPipelineActivity pipelineActName = env.getPipelineActivity pipelineActName)
    (hfirst : (UpsertCommitStatusCheck env name pipelineActName url sha pullRequest context w).1
      = none)
    (hstore : w2.commitStatuses =
      (UpsertCommitStatusCheck env name pipelineActName url sha pullRequest context
        w).2.commitStatuses) :
    UpsertCommitStatusCheck env2 name pipelineActName url sha pullRequest context w2 =
      (none, afterReads w2 name pipelineActName) := by
  cases hrec : storedRecord w name with
  | none =>
    rw [upsert_absent env name pipelineActName url sha pullRequest context w hname hrec]
      at hfirst hstore
    rw [createCommitStatus_ok env _ _ hfirst] at hstore
    have hpres : storedRecord w2 name = some
        { Name := name, Labels := [("lastCommitSha", sha)],
          Spec := { Items := [newStatusDetails url sha pullRequest context
            (activityReference (env.getPipelineActivity pipelineActName))] } } := by
      unfold storedRecord at hrec ⊢
      rw [hstore]
      show List.find? _ (w.commitStatuses ++ _) = _
      rw [List.find?_append, hrec]
      simp
    apply upsert_noop env2 name pipelineActName url sha pullRequest context w2 _ hname hpres
    · simp [possibleStatusDetails, possibleStatusDetailsFrom, newStatusDetails]
    · intro _
      simp [possibleStatusDetails, possibleStatusDetailsFrom, newStatusDetails, hact]
  | some status =>
    rw [upsert_present env name pipelineActName url sha pullRequest context w status hname hrec]
      at hfirst hstore
    have hn := name_of_find w.commitStatuses name status hrec
    by_cases hmulti : (possibleStatusDetails sha status.Spec.Items).length ≠ 1 ∧
        (possibleStatusDetails sha status.Spec.Items).length ≠ 0
    · rw [if_pos hmulti] at hfirst
      exact Option.noConfusion hfirst
    · rw [if_neg hmulti] at hfirst hstore
      have hle : (possibleStatusDetails sha status.Spec.Items).length ≤ 1 := by omega
      by_cases hupd : (possibleStatusDetails sha status.Spec.Items).length = 1 ∧
          (status.Spec.Items.getD ((possibleStatusDetails sha status.Spec.Items).headD 0)
            {}).PipelineActivity.UID ≠
            (activityReference (env.getPipelineActivity pipelineActName)).UID
      · rw [if_pos hupd] at hfirst hstore
        rw [updateCommitStatus_ok env _ _ hfirst] at hstore
        have hany : w.commitStatuses.any (fun s => s.Name == name) = true :=
          any_of_find w.commitStatuses name status hrec
        have hpres : storedRecord w2 name = some
            (setDetail status ((possibleStatusDetails sha status.Spec.Items).headD 0)
              (newStatusDetails url sha pullRequest context
                (activityReference (env.getPipelineActivity pipelineActName)))) := by
          unfold storedRecord
          rw [hstore]
          have := find_replaceRecord
            (setDetail status ((possibleStatusDetails sha status.Spec.Items).headD 0)
              (newStatusDetails url sha pullRequest context
                (activityReference (env.getPipelineActivity pipelineActName))))
            w.commitStatuses (by rw [show (setDetail status _ _).Name = name from hn]; exact hany)
          rw [show (setDetail status _ _).Name = name from hn] at this
          exact this
        have hposs := possible_setDetail sha status
          (newStatusDetails url sha pullRequest context
            (activityReference (env.getPipelineActivity pipelineActName))) rfl hupd.1
        apply upsert_noop env2 name pipelineActName url sha pullRequest context w2 _ hname hpres
        · rw [hposs]; exact hle
        · intro _
          rw [hposs, getD_setDetail sha status _ hupd.1, hact]
          rfl
      · rw [if_neg hupd] at hstore
        have hpres : storedRecord w2 name = some status := by
          unfold storedRecord at hrec ⊢
          rw [hstore]; exact hrec
        apply upsert_noop env2 name pipelineActName url sha pullRequest context w2 _ hname hpres hle
        intro h1
        rw [hact]
        by_contra hne
        exact hupd ⟨h1, hne⟩

/-- Witness of C1: on the empty store the first call creates the record `r`, and
the second call only reads. -/
theorem upsert_idempotent_witness :
    UpsertCommitStatusCheck exampleEnv "r" "act1" "url" "sha1" "PR-1" "build"
      (UpsertCommitStatusCheck exampleEnv "r" "act1" "url" "sha1" "PR-1" "build" {}).2 =
      (none, afterReads
        (UpsertCommitStatusCheck exampleEnv "r" "act1" "url" "sha1" "PR-1" "build" {}).2
        "r" "act1") :=
  upsert_idempotent exampleEnv exampleEnv "r" "act1" "url" "sha1" "PR-1" "build" {} _
    (by decide) rfl (by decide) rfl

/-- C2. Supersession in `UpsertCommitStatusCheck`: when the record named `name`
(non-empty, as every stored name is) holds exactly one detail for the sha, at
index `i`, the lookup of the pipeline activity answers with the activity
`act`, the UID stored in that detail differs from the UID of `act`, and the
Update of that record succeeds, the call returns no error, makes the two
reads and exactly one Update and no Create, and the stored record afterwards
has as many details as before, at index `i` the new detail (not checked, the
commit of the event, the reference made of the name, kind, UID and API
version of `act`, the context of the event, no sub-checks) and every other
detail unchanged. -/
theorem upsert_supersedes (env : Env)
    (name pipelineActName url sha pullRequest context : String) (w : World)
    (status : CommitStatus) (i : Nat) (d : CommitStatusDetails) (act : PipelineActivity)
    (hname : name ≠ "")
    (hrec : storedRecord w name = some status)
    (hi : status.Spec.Items[i]? = some d) (hsha : d.Commit.SHA = sha)
    (honly : ∀ k d0, status.Spec.Items[k]? = some d0 → d0.Commit.SHA = sha → k = i)
    (hlookup : env.getPipelineActivity pipelineActName = .ok act)
    (hdiffers : d.PipelineActivity.UID ≠ act.UID)
    (hupd : ∀ s, s.Name = name → env.updateFault s = none) :
    ∃ updated,
      UpsertCommitStatusCheck env name pipelineActName url sha pullRequest context w =
        (none, { commitStatuses := replaceRecord updated w.commitStatuses,
                 calls := w.calls ++ [.getCommitStatus name,
                   .getPipelineActivity pipelineActName, .updateCommitStatus updated] }) ∧
      storedRecord
        (UpsertCommitStatusCheck env name pipelineActName url sha pullRequest context w).2 name =
        some updated ∧
      updated.Spec.Items.length = status.Spec.Items.length ∧
      updated.Spec.Items[i]? = some
        { Checked := false,
          Commit := { GitURL := url, PullRequest := pullRequest, SHA := sha },
          PipelineActivity :=
            { Name := act.Name, Kind := act.Kind, UID := act.UID,
              APIVersion := act.APIVersion },
          Context := context,
          Items := [] } ∧
      ∀ k, k ≠ i → updated.Spec.Items[k]? = status.Spec.Items[k]? := by
  have href : activityReference (env.getPipelineActivity pipelineActName) =
      { Name := act.Name, Kind := act.Kind, UID := act.UID, APIVersion := act.APIVersion } := by
    rw [hlookup]; rfl
  have huid : d.PipelineActivity.UID ≠
      (activityReference (env.getPipelineActivity pipelineActName)).UID := by
    rw [href]; exact hdiffers
  have hposs : possibleStatusDetails sha status.Spec.Items = [i] := by
    have := possibleFrom_singleton sha status.Spec.Items 0 i d hi hsha honly
    simpa [possibleStatusDetails] using this
  have hn := name_of_find w.commitStatuses name status hrec
  have hany : w.commitStatuses.any (fun s => s.Name == name) = true :=
    any_of_find w.commitStatuses name status hrec
  have hlt : i < status.Spec.Items.length := by
    by_contra hge
    rw [List.getElem?_eq_none (by omega)] at hi
    exact Option.noConfusion hi
  have hgetD : status.Spec.Items.getD i {} = d := by
    rw [List.getD_eq_getElem?_getD, hi]; rfl
  have hcall := upsert_present env name pipelineActName url sha pullRequest context w status
    hname hrec
  rw [hposs] at hcall
  simp only [List.length_singleton, ne_eq, not_true_eq_false, false_and, if_false,
    List.headD_cons, true_and, hgetD, huid, not_false_eq_true, if_true] at hcall
  have hsn : (setDetail status i (newStatusDetails url sha pullRequest context
      (activityReference (env.getPipelineActivity pipelineActName)))).Name = name := hn
  have hok := updateCommitStatus_succeeds env _ (afterReads w name pipelineActName)
    (hupd _ hsn) (by rw [hsn]; exact hany)
  have hstore := updateCommitStatus_ok env _ _ hok
  have hcalls := updateCommitStatus_calls env
    (setDetail status i (newStatusDetails url sha pullRequest context
      (activityReference (env.getPipelineActivity pipelineActName))))
    (afterReads w name pipelineActName)
  refine ⟨setDetail status i (newStatusDetails url sha pullRequest context
      (activityReference (env.getPipelineActivity pipelineActName))), ?_, ?_, ?_, ?_, ?_⟩
  · rw [hcall]
    refine Prod.ext hok ?_
    show (updateCommitStatus env _ _).2 = _
    cases hres : (updateCommitStatus env
      (setDetail status i (newStatusDetails url sha pullRequest context
        (activityReference (env.getPipelineActivity pipelineActName))))
      (afterReads w name pipelineActName)).2 with
    | mk cs calls =>
      rw [hres] at hstore hcalls
      simp only at hstore hcalls
      rw [hstore, hcalls]
      simp [afterReads]
  · rw [hcall]
    unfold storedRecord
    rw [hstore]
    have := find_replaceRecord
      (setDetail status i (newStatusDetails url sha pullRequest context
        (activityReference (env.getPipelineActivity pipelineActName))))
      w.commitStatuses (by rw [hsn]; exact hany)
    rw [hsn] at this
    exact this
  · simp [setDetail]
  · simp [setDetail, List.getElem?_set_self hlt, newStatusDetails, href]
  · intro k hk
    simp [setDetail, List.getElem?_set_ne (Ne.symm hk)]

/-- Witness of C2: in the example store the detail for `sha1` of record `r`, at
index 1, refers to `uid-act0`, and the activity looked up is `act1`, with
UID `uid-act1`; the detail stored afterwards refers to `act1`. -/
theorem upsert_supersedes_witness :
    ∃ updated,
      UpsertCommitStatusCheck exampleEnv "r" "act1" "url" "sha1" "PR-1" "build" exampleWorld =
        (none, { commitStatuses := replaceRecord updated exampleWorld.commitStatuses,
                 calls := exampleWorld.calls ++ [.getCommitStatus "r",
                   .getPipelineActivity "act1", .updateCommitStatus updated] }) ∧
      storedRecord
        (UpsertCommitStatusCheck exampleEnv "r" "act1" "url" "sha1" "PR-1" "build"
          exampleWorld).2 "r" = some updated ∧
      updated.Spec.Items.length = exampleRecord.Spec.Items.length ∧
      updated.Spec.Items[1]? = some
        { Checked := false,
          Commit := { GitURL := "url", PullRequest := "PR-1", SHA := "sha1" },
          PipelineActivity :=
            { Name := "act1", Kind := "PipelineActivity", UID := "uid-act1",
              APIVersion := "jenkins.io/v1" },
          Context := "build",
          Items := [] } ∧
      ∀ k, k ≠ 1 → updated.Spec.Items[k]? = exampleRecord.Spec.Items[k]? :=
  upsert_supersedes exampleEnv "r" "act1" "url" "sha1" "PR-1" "build" exampleWorld
    exampleRecord 1 exampleDetail1
    { Name := "act1", Kind := "PipelineActivity", UID := "uid-act1",
      APIVersion := "jenkins.io/v1" }
    (by decide) (by decide) (by decide) (by decide)
    (by
      intro k d0 hk hs
      match k, hk with
      | 0, hk =>
        have h0 : exampleDetail0 = d0 := by simpa [exampleRecord] using hk
        rw [← h0] at hs
        exact absurd hs (by decide)
      | 1, _ => rfl
      | k + 2, hk => simp [exampleRecord] at hk)
    (by rfl) (by decide) (fun _ _ => rfl)

/-- C3. Multi-match rejection in `UpsertCommitStatusCheck`: when the record
named `name` (non-empty, as every stored name is) holds two or more details
for the sha, the call returns the multi-match error, which carries all the
matching indices, and makes the two reads and nothing else: no Create, no
Update, the store unchanged. -/
theorem upsert_rejects_multiple (env : Env)
    (name pipelineActName url sha pullRequest context : String) (w : World)
    (status : CommitStatus) (hname : name ≠ "")
    (hrec : storedRecord w name = some status)
    (htwo : 2 ≤ (detailsFor sha status).length) :
    UpsertCommitStatusCheck env name pipelineActName url sha pullRequest context w =
        (some (.moreThanOne (detailsFor sha status).length sha
          (possibleStatusDetails sha status.Spec.Items)),
         afterReads w name pipelineActName) ∧
      (possibleStatusDetails sha status.Spec.Items).length = (detailsFor sha status).length := by
  have hlen : (possibleStatusDetails sha status.Spec.Items).length =
      (detailsFor sha status).length := possibleFrom_length sha status.Spec.Items 0
  refine ⟨?_, hlen⟩
  rw [upsert_present env name pipelineActName url sha pullRequest context w status hname hrec,
    if_pos (by omega), hlen]

/-- Witness of C3: the record `r` of the store with the duplicated sha holds two
details for `sha1`, at indices 0 and 2. -/
theorem upsert_rejects_multiple_witness :
    UpsertCommitStatusCheck exampleEnv "r" "act1" "url" "sha1" "PR-1" "build" duplicateWorld =
        (some (.moreThanOne 2 "sha1" [0, 2]), afterReads duplicateWorld "r" "act1") ∧
      (possibleStatusDetails "sha1" duplicateRecord.Spec.Items).length = 2 :=
  upsert_rejects_multiple exampleEnv "r" "act1" "url" "sha1" "PR-1" "build" duplicateWorld
    duplicateRecord (by decide) (by decide) (by decide)

theorem uniqueShas_setDetail (sha : String) (status : CommitStatus) (d : CommitStatusDetails)
    (hd : d.Commit.SHA = sha) (hu : uniqueShas status)
    (h1 : (possibleStatusDetails sha status.Spec.Items).length = 1) :
    uniqueShas (setDetail status ((possibleStatusDetails sha status.Spec.Items).headD 0) d) := by
  obtain ⟨d0, hd0, hs⟩ := possible_head sha status.Spec.Items h1
  unfold uniqueShas setDetail
  show ((status.Spec.Items.set _ d).map (fun x => x.Commit.SHA)).Nodup
  rw [map_sha_set status.Spec.Items _ d d0 hd0 (by rw [hs, hd])]
  exact hu

/-- C4. The uniqueness invariant is preserved by `UpsertCommitStatusCheck`: if no
stored record has two details with the same commit sha before the call, none
has after it, whatever the call did and returned. -/
theorem upsert_preserves_unique (env : Env)
    (name pipelineActName url sha pullRequest context : String) (w : World)
    (h : storeUnique w) :
    storeUnique
      (UpsertCommitStatusCheck env name pipelineActName url sha pullRequest context w).2 := by
  by_cases hname : name = ""
  · simpa [UpsertCommitStatusCheck, hname] using h
  · cases hrec : storedRecord w name with
    | none =>
      rw [upsert_absent env name pipelineActName url sha pullRequest context w hname hrec]
      rcases createCommitStatus_store env
        { Name := name, Labels := [("lastCommitSha", sha)],
          Spec := { Items := [newStatusDetails url sha pullRequest context
            (activityReference (env.getPipelineActivity pipelineActName))] } }
        (afterReads w name pipelineActName) with hs | hs
      · intro r hr
        rw [hs] at hr
        exact h r hr
      · intro r hr
        rw [hs] at hr
        rcases List.mem_append.mp hr with hr | hr
        · exact h r hr
        · rw [List.mem_singleton.mp hr]
          simp [uniqueShas]
    | some status =>
      rw [upsert_present env name pipelineActName url sha pullRequest context w status hname hrec]
      have hmem : status ∈ w.commitStatuses := List.mem_of_find?_eq_some hrec
      split
      · exact h
      · split
        · rename_i hupd
          rcases updateCommitStatus_store env
            (setDetail status ((possibleStatusDetails sha status.Spec.Items).headD 0)
              (newStatusDetails url sha pullRequest context
                (activityReference (env.getPipelineActivity pipelineActName))))
            (afterReads w name pipelineActName) with hs | hs
          · intro r hr
            rw [hs] at hr
            exact h r hr
          · intro r hr
            rw [hs] at hr
            rcases mem_replaceRecord _ _ r hr with hr | hr
            · rw [hr]
              exact uniqueShas_setDetail sha status _ rfl (h status hmem) hupd.1
            · exact h r hr
        · exact h

/-- Witness of C4: the example store satisfies the invariant, and still does
after the detail for `sha1` of record `r` is superseded. -/
theorem upsert_preserves_unique_witness :
    storeUnique
      (UpsertCommitStatusCheck exampleEnv "r" "act1" "url" "sha1" "PR-1" "build"
        exampleWorld).2 :=
  upsert_preserves_unique exampleEnv "r" "act1" "url" "sha1" "PR-1" "build" exampleWorld
    (by decide)

/-- C5, evaluated at a failing input. The example store satisfies the uniqueness
invariant and holds a record `r` with no detail for `sha2`. Reconciling an
event for `sha2` under that name, in an environment where no write fails,
returns no error, makes the two reads and no write, and the record stored
under `r` afterwards still holds no detail for `sha2`. -/
theorem upsert_existing_record_new_sha :
    storeUnique exampleWorld ∧
      UpsertCommitStatusCheck exampleEnv "r" "act1" "url" "sha2" "PR-1" "build" exampleWorld =
        (none, afterReads exampleWorld "r" "act1") ∧
      (storedRecord
        (UpsertCommitStatusCheck exampleEnv "r" "act1" "url" "sha2" "PR-1" "build"
          exampleWorld).2 "r").map (fun r => (detailsFor "sha2" r).length) = some 0 := by
  refine ⟨by decide, by decide, by decide⟩

/-! ## Lemmas on `getGitProvider` and on the loop over the sub-checks -/

theorem getGitProvider_frame (env : Env) (url : String) (w : World) :
    notifications (getGitProvider env url w).2.calls = notifications w.calls ∧
      (getGitProvider env url w).2.commitStatuses = w.commitStatuses := by
  unfold getGitProvider
  split
  · exact ⟨rfl, rfl⟩
  · split
    · exact ⟨rfl, rfl⟩
    · split
      · exact ⟨rfl, rfl⟩
      · split
        · simp only [setenv, World.record]
          split
          · rename_i h
            simp only [Prod.mk.injEq] at h
            rw [← h.2]
            simp [notifications]
          · rename_i h
            simp only [Prod.mk.injEq] at h
            split
            · rename_i h2
              simp only [Prod.mk.injEq] at h2
              rw [← h2.2, ← h.2]
              simp [notifications]
            · rename_i h2
              simp only [Prod.mk.injEq] at h2
              rw [← h2.2, ← h.2]
              simp [notifications]
        · exact ⟨rfl, rfl⟩

theorem foldl_checkItem (sha : String) (items : List CommitStatusItem) (pass : Bool)
    (builder : String) :
    items.foldl (checkItem sha) (pass, builder) =
      (pass && items.all (fun c => c.Pass), builder ++ failingRows sha items) := by
  induction items generalizing pass builder with
  | nil => simp [failingRows]
  | cons c rest ih =>
    cases hc : c.Pass
    · simp [List.foldl_cons, checkItem, hc, ih, failingRows, String.append_assoc]
    · simp [List.foldl_cons, checkItem, hc, ih, failingRows]

/-- What `update` does once the git provider is resolved: one notifier call,
whose error it returns. -/
theorem update_resolved (env : Env) (d : CommitStatusDetails) (w : World)
    (gitProvider : GitProvider) (gitRepoInfo : GitRepositoryInfo)
    (hgit : (getGitProvider env d.Commit.GitURL w).1 = .ok (gitProvider, gitRepoInfo)) :
    update env d w =
      if d.Checked then
        if d.Items.all (fun c => c.Pass) then
          NotifyCommitStatus env d.Commit "success" "" "%s completed successfully" ""
            d.Context gitProvider gitRepoInfo (getGitProvider env d.Commit.GitURL w).2
        else
          NotifyCommitStatus env d.Commit "failure" "" "Some commit statusDetails checks failed"
            (commentHeader ++ failingRows d.Commit.SHA d.Items ++ commentFooter)
            d.Context gitProvider gitRepoInfo (getGitProvider env d.Commit.GitURL w).2
      else
        NotifyCommitStatus env d.Commit "pending" ""
          ("Waiting for " ++ d.Context ++ " to complete") ""
          d.Context gitProvider gitRepoInfo (getGitProvider env d.Commit.GitURL w).2 := by
  unfold update
  cases hg : getGitProvider env d.Commit.GitURL w with
  | mk r w1 =>
    rw [hg] at hgit
    simp only at hgit
    subst hgit
    simp only [foldl_checkItem, Bool.true_and, String.empty_append]

theorem notify_calls (env : Env) (commit : CommitStatusCommitReference)
    (state targetUrl description comment context : String)
    (gitProvider : GitProvider) (gitRepoInfo : GitRepositoryInfo) (w : World) :
    notifications (NotifyCommitStatus env commit state targetUrl description comment context
      gitProvider gitRepoInfo w).2.calls =
      notifications w.calls ++ [.notifyCommitStatus commit state targetUrl description comment
        context gitProvider gitRepoInfo] := by
  simp [NotifyCommitStatus, World.record, notifications]

/-! ## Claims on `update` -/

/-- C6. Success composition in `update`: for a checked detail whose sub-checks
all pass (an empty list included), when the git provider resolves and the
notifier succeeds, `update` returns no error and adds exactly one
notification to the trace, with state `success`, an empty comment, and the
commit and context of the detail. -/
theorem update_success (env : Env) (d : CommitStatusDetails) (w : World)
    (gitProvider : GitProvider) (gitRepoInfo : GitRepositoryInfo)
    (hchecked : d.Checked = true)
    (hpass : ∀ c ∈ d.Items, c.Pass = true)
    (hgit : (getGitProvider env d.Commit.GitURL w).1 = .ok (gitProvider, gitRepoInfo))
    (hnotify : ∀ commit state targetUrl description comment context gp info,
      env.NotifyCommitStatus commit state targetUrl description comment context gp info = none) :
    (update env d w).1 = none ∧
      notifications (update env d w).2.calls =
        notifications w.calls ++ [.notifyCommitStatus d.Commit "success" ""
          "%s completed successfully" "" d.Context gitProvider gitRepoInfo] := by
  have hall : d.Items.all (fun c => c.Pass) = true := List.all_eq_true.mpr hpass
  rw [update_resolved env d w gitProvider gitRepoInfo hgit, hchecked, hall]
  simp only [if_true]
  refine ⟨hnotify _ _ _ _ _ _ _ _, ?_⟩
  rw [notify_calls, (getGitProvider_frame env d.Commit.GitURL w).1]

/-- Witness of C6: a checked detail with two passing sub-checks, in the
environment where every collaborator answers without error. -/
theorem update_success_witness :
    (update exampleEnv exampleDetail3 {}).1 = none ∧
      notifications (update exampleEnv exampleDetail3 {}).2.calls =
        notifications ({} : World).calls ++ [.notifyCommitStatus exampleDetail3.Commit "success" ""
          "%s completed successfully" "" exampleDetail3.Context { Kind := "github" }
          { URL := "https://github.com/o/r" }] :=
  update_success exampleEnv exampleDetail3 {} { Kind := "github" }
    { URL := "https://github.com/o/r" } (by decide) (by decide) (by rfl)
    (fun _ _ _ _ _ _ _ _ => rfl)

/-- C7 as stated fails: the example detail is checked and has a failing
sub-check, yet in an environment where the git provider cannot be resolved
`update` returns that error and emits no notification at all. -/
theorem update_failure_unresolved :
    exampleDetail1.Checked = true ∧
      (∃ c ∈ exampleDetail1.Items, c.Pass = false) ∧
      (update unresolvedEnv exampleDetail1 {}).1 = some (.external "cannot parse git url") ∧
      notifications (update unresolvedEnv exampleDetail1 {}).2.calls = [] := by
  refine ⟨by decide, by decide, by decide, by decide⟩

/-- C7, amended. Failure composition in `update`: for a checked detail with at
least one failing sub-check, when the git provider resolves, `update` adds
exactly one notification to the trace, with state `failure`, whose comment is
the fixed table header, then in sub-check order one row for each failing
sub-check and none for a passing one (`failingRows`), then the static help
footer; a row (`commentRow`) is the name, the description, the commit sha of
the detail, `TODO` and the rerun command, separated by ` | ` and ended by a
newline. -/
theorem update_failure (env : Env) (d : CommitStatusDetails) (w : World)
    (gitProvider : GitProvider) (gitRepoInfo : GitRepositoryInfo)
    (hchecked : d.Checked = true)
    (hfail : ∃ c ∈ d.Items, c.Pass = false)
    (hgit : (getGitProvider env d.Commit.GitURL w).1 = .ok (gitProvider, gitRepoInfo)) :
    notifications (update env d w).2.calls =
        notifications w.calls ++ [.notifyCommitStatus d.Commit "failure" ""
          "Some commit statusDetails checks failed"
          (commentHeader ++ failingRows d.Commit.SHA d.Items ++ commentFooter)
          d.Context gitProvider gitRepoInfo] := by
  have hall : d.Items.all (fun c => c.Pass) = false := by
    obtain ⟨c, hc, hp⟩ := hfail
    rw [List.all_eq_false]
    exact ⟨c, hc, by simp [hp]⟩
  rw [update_resolved env d w gitProvider gitRepoInfo hgit, hchecked, hall]
  simp only [if_true, Bool.false_eq_true, if_false]
  rw [notify_calls, (getGitProvider_frame env d.Commit.GitURL w).1]

/-- Witness of C7, amended: the example detail has a passing sub-check `unit`
and a failing sub-check `lint`; the comment holds the row for `lint` only. -/
theorem update_failure_witness :
    notifications (update exampleEnv exampleDetail1 {}).2.calls =
      [.notifyCommitStatus exampleDetail1.Commit "failure" ""
        "Some commit statusDetails checks failed"
        (commentHeader ++ "lint | style | sha1 | TODO | `/test this`\n" ++ commentFooter)
        "build" { Kind := "github" } { URL := "https://github.com/o/r" }] :=
  update_failure exampleEnv exampleDetail1 {} { Kind := "github" }
    { URL := "https://github.com/o/r" } (by decide) (by decide) (by rfl)

/-- C8 as stated fails: the detail `UpsertCommitStatusCheck` writes is not
checked, yet in an environment where the git provider cannot be resolved
`update` returns that error and emits no notification at all. -/
theorem update_pending_unresolved :
    exampleDetail2.Checked = false ∧
      (update unresolvedEnv exampleDetail2 {}).1 = some (.external "cannot parse git url") ∧
      notifications (update unresolvedEnv exampleDetail2 {}).2.calls = [] := by
  refine ⟨by decide, by decide, by decide⟩

/-- C8, amended. Pending default in `update`: for a detail that is not checked,
whatever its sub-checks, when the git provider resolves, `update` adds
exactly one notification to the trace, with state `pending`, the description
`Waiting for <context> to complete` and an empty comment; and in every record
a call of `UpsertCommitStatusCheck` sends to Create or Update, the detail for
the sha of the event is not checked, so that it is evaluated as pending. -/
theorem update_pending (env : Env) (d : CommitStatusDetails) (w : World)
    (gitProvider : GitProvider) (gitRepoInfo : GitRepositoryInfo)
    (hchecked : d.Checked = false)
    (hgit : (getGitProvider env d.Commit.GitURL w).1 = .ok (gitProvider, gitRepoInfo)) :
    notifications (update env d w).2.calls =
        notifications w.calls ++ [.notifyCommitStatus d.Commit "pending" ""
          ("Waiting for " ++ d.Context ++ " to complete") "" d.Context
          gitProvider gitRepoInfo] ∧
      ∀ (env0 : Env) (name pipelineActName url sha pullRequest context : String) (w0 : World)
        (s : CommitStatus),
        (Call.createCommitStatus s ∈
            (UpsertCommitStatusCheck env0 name pipelineActName url sha pullRequest context
              w0).2.calls.drop w0.calls.length ∨
          Call.updateCommitStatus s ∈
            (UpsertCommitStatusCheck env0 name pipelineActName url sha pullRequest context
              w0).2.calls.drop w0.calls.length) →
        ∀ d0 ∈ s.Spec.Items, d0.Commit.SHA = sha → d0.Checked = false := by
  constructor
  · rw [update_resolved env d w gitProvider gitRepoInfo hgit, hchecked]
    simp only [Bool.false_eq_true, if_false]
    rw [notify_calls, (getGitProvider_frame env d.Commit.GitURL w).1]
  · intro env0 name pipelineActName url sha pullRequest context w0 s hs d0 hd0 hsha
    obtain ⟨extra, hcalls, hwritten⟩ :=
      upsert_written env0 name pipelineActName url sha pullRequest context w0
    rw [hcalls, List.drop_left] at hs
    rw [hwritten s hs d0 hd0 hsha]
    rfl

/-- Witness of C8, amended: the detail written for an event with context
`build`. -/
theorem update_pending_witness :
    notifications (update exampleEnv exampleDetail2 {}).2.calls =
      [.notifyCommitStatus exampleDetail2.Commit "pending" "" "Waiting for build to complete" ""
        "build" { Kind := "github" } { URL := "https://github.com/o/r" }] :=
  (update_pending exampleEnv exampleDetail2 {} { Kind := "github" }
    { URL := "https://github.com/o/r" } (by decide) (by rfl)).1

/-! ## Claims on `onPod` and `onCommitStatus` -/

theorem setVar_buildNumber (v : BuildVars) (e : EnvVar)
    (he : e.Name = "JX_BUILD_NUMBER" → e.Value = "") (hv : v.buildNumber = "") :
    (setVar v e).buildNumber = "" := by
  unfold setVar
  split_ifs with h1 h2 h3 h4 h5 h6 h7 h8
  all_goals first
    | exact hv
    | exact he h6

theorem foldl_setVar_buildNumber (envs : List EnvVar) (v : BuildVars)
    (he : ∀ e ∈ envs, e.Name = "JX_BUILD_NUMBER" → e.Value = "") (hv : v.buildNumber = "") :
    (envs.foldl setVar v).buildNumber = "" := by
  induction envs generalizing v with
  | nil => exact hv
  | cons e rest ih =>
    exact ih (setVar v e) (fun e2 h2 => he e2 (List.mem_cons_of_mem _ h2))
      (setVar_buildNumber v e (he e (List.mem_cons_self _ _)) hv)

theorem foldl_containers_buildNumber (containers : List Container) (v : BuildVars)
    (he : ∀ c ∈ containers, ∀ e ∈ c.Env, e.Name = "JX_BUILD_NUMBER" → e.Value = "")
    (hv : v.buildNumber = "") :
    (containers.foldl (fun v initContainer => initContainer.Env.foldl setVar v) v).buildNumber
      = "" := by
  induction containers generalizing v with
  | nil => exact hv
  | cons c rest ih =>
    exact ih (c.Env.foldl setVar v) (fun c2 h2 => he c2 (List.mem_cons_of_mem _ h2))
      (foldl_setVar_buildNumber c.Env v (he c (List.mem_cons_self _ _)) hv)

/-- C9. Guard rejection in `onPod`: when no initialization container declares a
non-empty `JX_BUILD_NUMBER`, or the environment yields an empty build number,
an empty owner or an empty repo, or yields both `PULL_BASE_SHA` and
`PULL_PULL_SHA` empty, `onPod` returns nil and leaves the state as it was:
the store is unchanged and nothing is added to the trace, so there is no call
of the context resolver, no read or write of a status record and no
notification. -/
theorem onPod_guard (env : Env) (pod : Pod) (w : World)
    (h : (∀ c ∈ pod.Spec.InitContainers, ∀ e ∈ c.Env,
          e.Name = "JX_BUILD_NUMBER" → e.Value = "") ∨
      (scanInitContainers pod).buildNumber = "" ∨
      (scanInitContainers pod).org = "" ∨
      (scanInitContainers pod).repo = "" ∨
      ((scanInitContainers pod).pullBaseSha = "" ∧ (scanInitContainers pod).pullPullSha = "")) :
    onPod env (some pod) w = (none, w) := by
  have hguard : ¬ ((scanInitContainers pod).org ≠ "" ∧ (scanInitContainers pod).repo ≠ "" ∧
      (scanInitContainers pod).buildNumber ≠ "" ∧
      ((scanInitContainers pod).pullBaseSha ≠ "" ∨ (scanInitContainers pod).pullPullSha ≠ "")) := by
    rintro ⟨ho, hr, hb, hs⟩
    rcases h with h | h | h | h | h
    · exact hb (foldl_containers_buildNumber pod.Spec.InitContainers {} h rfl)
    · exact hb h
    · exact ho h
    · exact hr h
    · rcases hs with hs | hs
      · exact hs h.1
      · exact hs h.2
  unfold onPod
  cases hl : pod.Labels with
  | none => simp only [hl]
  | some labels =>
    simp only [hl, if_neg hguard, ite_self]

/-- Witness of C9: a pod that declares every variable but `JX_BUILD_NUMBER`. -/
theorem onPod_guard_witness :
    onPod exampleEnv (some podWithoutBuildNumber) exampleWorld = (none, exampleWorld) :=
  onPod_guard exampleEnv podWithoutBuildNumber exampleWorld (Or.inl (by decide))

theorem onCommitStatusItems_append (env : Env) (pre rest : List CommitStatusDetails) (w : World)
    (hpre : (onCommitStatusItems env pre w).1 = none) :
    onCommitStatusItems env (pre ++ rest) w =
      onCommitStatusItems env rest (onCommitStatusItems env pre w).2 := by
  induction pre generalizing w with
  | nil => rfl
  | cons v vs ih =>
    cases hu : update env v w with
    | mk r w1 =>
      cases r with
      | some err =>
        exfalso
        simp only [onCommitStatusItems, hu] at hpre
        revert hpre
        split
        · intro h; exact Option.noConfusion h
        · split <;> (intro h; exact Option.noConfusion h)
      | none =>
        simp only [onCommitStatusItems, hu, List.cons_append] at hpre ⊢
        exact ih w1 hpre

/-- C10. Error precedence in `onCommitStatus`: when `update` fails with error `E`
on a detail of the record (the details before it having been processed
without error), and the best-effort `error` notification that follows is
made and fails too, with any error `E'`, `onCommitStatus` returns `E`. -/
theorem onCommitStatus_error_precedence (env : Env) (check : CommitStatus)
    (pre post : List CommitStatusDetails) (d : CommitStatusDetails) (w : World)
    (E E' : Error) (gitProvider : GitProvider) (gitRepoInfo : GitRepositoryInfo)
    (hitems : check.Spec.Items = pre ++ d :: post)
    (hpre : (onCommitStatusItems env pre w).1 = none)
    (hupd : (update env d (onCommitStatusItems env pre w).2).1 = some E)
    (hgit : (getGitProvider env d.Commit.GitURL
      (update env d (onCommitStatusItems env pre w).2).2).1 = .ok (gitProvider, gitRepoInfo))
    (hnotify : env.NotifyCommitStatus d.Commit "error" ""
      "Internal Error performing commit status updates" "" d.Context gitProvider gitRepoInfo
      = some E') :
    (onCommitStatus env check w).1 = some E := by
  unfold onCommitStatus
  rw [hitems, onCommitStatusItems_append env pre (d :: post) w hpre]
  cases hu : update env d (onCommitStatusItems env pre w).2 with
  | mk r w1 =>
    rw [hu] at hupd hgit
    simp only at hupd hgit
    subst hupd
    cases hg : getGitProvider env d.Commit.GitURL w1 with
    | mk g w2 =>
      rw [hg] at hgit
      simp only at hgit
      subst hgit
      simp only [onCommitStatusItems, hu, hg, NotifyCommitStatus, hnotify]

/-- Witness of C10: the notifier accepts the pending notification of the first
detail, fails on the failure notification of the second with `update
failed`, and fails on the `error` notification with `notify failed`. -/
theorem onCommitStatus_error_precedence_witness :
    (onCommitStatus failingNotifyEnv exampleCheck {}).1 = some (.external "update failed") :=
  onCommitStatus_error_precedence failingNotifyEnv exampleCheck [exampleDetail2]
    [exampleDetail0] exampleDetail1 {} (.external "update failed") (.external "notify failed")
    { Kind := "github" } { URL := "https://github.com/o/r" }
    (by decide) (by decide) (by decide) (by rfl) (by decide)


/-! ## Claims on the resolution of sha and branch in `onPod` -/

theorem passesGuard_buildPod (env : Env) (vars : List EnvVar)
    (hlabel : env.LabelBuildName = "build-name" ∨ env.LabelOldBuildName = "build-name")
    (hvars : (scanInitContainers (buildPod vars)).org ≠ "" ∧
      (scanInitContainers (buildPod vars)).repo ≠ "" ∧
      (scanInitContainers (buildPod vars)).buildNumber ≠ "" ∧
      ((scanInitContainers (buildPod vars)).pullBaseSha ≠ "" ∨
        (scanInitContainers (buildPod vars)).pullPullSha ≠ "")) :
    passesGuard env (buildPod vars) := by
  refine ⟨⟨[("build-name", "b1")], rfl, ?_⟩, hvars⟩
  rcases hlabel with h | h
  · left; rw [h]; decide
  · right; rw [h]; decide

theorem prefix_ne_of_ne_empty (n : String) (hn : n ≠ "") : "PR-" ++ n ≠ "PR-" := by
  intro h
  have hlen := congrArg String.length h
  rw [String.length_append] at hlen
  have h0 : n.length = 0 := by
    have h3 : ("PR-" : String).length = 3 := by decide
    omega
  apply hn
  cases n with
  | mk data =>
    have : data = [] := List.length_eq_zero.mp h0
    rw [this]

/-- The resolution when a pull-request number is declared with a non-empty
value `n`: the sha is the value of `PULL_PULL_SHA` and the branch is `PR-n`. -/
theorem resolveSha_pull_request (v : BuildVars) (n : String) (hn : n ≠ "")
    (hpr : v.pullRequest = "PR-" ++ n) :
    resolveSha v = ({ v with branch := "PR-" ++ n }, v.pullPullSha) := by
  unfold resolveSha
  rw [if_neg (by rw [hpr]; exact prefix_ne_of_ne_empty n hn), hpr]

/-- The resolution when the pull-request number is declared with an empty
value: the sha is the value of `PULL_BASE_SHA` and the branch is kept. -/
theorem resolveSha_declared_empty (v : BuildVars) (hpr : v.pullRequest = "PR-") :
    resolveSha v = ({ v with pullRequest := "" }, v.pullBaseSha) := by
  unfold resolveSha
  rw [if_pos hpr]

/-- The resolution when no pull-request number is declared: the sha is the value
of `PULL_PULL_SHA` and the branch is emptied. -/
theorem resolveSha_undeclared (v : BuildVars) (hpr : v.pullRequest = "") :
    resolveSha v = ({ v with branch := "" }, v.pullPullSha) := by
  unfold resolveSha
  rw [if_neg (by rw [hpr]; decide), hpr]

/-- C11, evaluated at a failing input. The pod declares owner, repo, build
number, `PULL_BASE_SHA = sha0` and `PULL_BASE_REF = master` and does not
declare `PULL_NUMBER`. It passes the guard, and the resolution takes the
pull-request branch: the effective sha is the (empty) value of
`PULL_PULL_SHA`, not `sha0`, and the effective branch is empty, not `master`;
`onPod` then returns nil without calling the context resolver. -/
theorem onPod_undeclared_pull_number :
    passesGuard exampleEnv podWithoutPullNumber ∧
      (scanInitContainers podWithoutPullNumber).pullRequest = "" ∧
      (scanInitContainers podWithoutPullNumber).pullBaseSha = "sha0" ∧
      (scanInitContainers podWithoutPullNumber).branch = "master" ∧
      effectiveSha podWithoutPullNumber = "" ∧
      (resolvedVars podWithoutPullNumber).branch = "" ∧
      onPod exampleEnv (some podWithoutPullNumber) {} = (none, {}) := by
  refine ⟨passesGuard_buildPod exampleEnv _ (Or.inr rfl) (by decide), by decide, by decide,
    by decide, by decide, by decide, by decide⟩


/-! ## Claims on the loop of `onPod` over the required contexts -/

/-- What `onPod` does for a pod that passes the guards and resolves a non-empty
sha: it asks for the required contexts and runs the loop over them. -/
theorem onPod_passed (env : Env) (pod : Pod) (w : World)
    (hguard : passesGuard env pod) (hsha : effectiveSha pod ≠ "") :
    onPod env (some pod) w =
      match env.GetBranchProtectionContexts (resolvedVars pod).org (resolvedVars pod).repo with
      | .error err =>
        (some err, w.record
          (.getBranchProtectionContexts (resolvedVars pod).org (resolvedVars pod).repo))
      | .ok contexts =>
        onPodContexts env (resolvedVars pod) (effectiveSha pod) contexts
          (w.record
            (.getBranchProtectionContexts (resolvedVars pod).org (resolvedVars pod).repo)) := by
  obtain ⟨⟨labels, hl, hname⟩, hvars⟩ := hguard
  have hbuild : (if labelValue labels env.LabelBuildName = "" then
      labelValue labels env.LabelOldBuildName else labelValue labels env.LabelBuildName) ≠ "" := by
    by_cases h : labelValue labels env.LabelBuildName = ""
    · rw [if_pos h]
      rcases hname with h1 | h1
      · exact absurd h h1
      · exact h1
    · rw [if_neg h]; exact h
  unfold effectiveSha at hsha
  unfold onPod resolvedVars effectiveSha
  simp only [hl, if_pos hbuild, if_pos hvars]
  cases hres : resolveSha (scanInitContainers pod) with
  | mk v sha =>
    rw [hres] at hsha
    simp only [if_neg hsha]

theorem foldl_upsertStep_error (env : Env) (v : BuildVars) (sha : String)
    (contexts : List String) (err : Error) (w : World) :
    contexts.foldl (upsertStep env v sha) (some err, w) = (some err, w) := by
  induction contexts with
  | nil => rfl
  | cons ctx rest ih => simpa [List.foldl_cons, upsertStep] using ih

/-- For a pull-request build the loop is the sequence of upserts. -/
theorem onPodContexts_pull_request (env : Env) (v : BuildVars) (sha : String)
    (contexts : List String) (w : World) (hpr : v.pullRequest ≠ "") :
    onPodContexts env v sha contexts w = contexts.foldl (upsertStep env v sha) (none, w) := by
  induction contexts generalizing w with
  | nil => rfl
  | cons ctx rest ih =>
    simp only [onPodContexts, if_pos hpr, List.foldl_cons, upsertStep]
    cases hu : UpsertCommitStatusCheck env
        (env.ToValidName (v.org ++ "-" ++ v.repo ++ "-" ++ v.branch ++ "-" ++ ctx))
        (env.ToValidName (v.org ++ "-" ++ v.repo ++ "-" ++ v.branch ++ "-" ++ v.buildNumber))
        v.sourceUrl sha v.pullRequest ctx w with
    | mk r w1 =>
      have hu2 : UpsertCommitStatusCheck env (recordName env v ctx) (activityName env v)
          v.sourceUrl sha v.pullRequest ctx w = (r, w1) := hu
      rw [hu2]
      cases r with
      | some err => exact (foldl_upsertStep_error env v sha rest err w1).symm
      | none => exact ih w1

/-- For a build without pull-request identifier the loop does nothing. -/
theorem onPodContexts_no_pull_request (env : Env) (v : BuildVars) (sha : String)
    (contexts : List String) (w : World) (hpr : v.pullRequest = "") :
    onPodContexts env v sha contexts w = (none, w) := by
  induction contexts with
  | nil => rfl
  | cons ctx rest ih =>
    simp only [onPodContexts, hpr, ne_eq, not_true_eq_false, if_false]
    simpa [hpr] using ih


/-- The trace of a call of `UpsertCommitStatusCheck` with a non-empty name: the
two reads, then at most the one write. -/
theorem upsert_trace (env : Env)
    (name pipelineActName url sha pullRequest context : String) (w : World)
    (hname : name ≠ "") :
    ∃ writes,
      (UpsertCommitStatusCheck env name pipelineActName url sha pullRequest context w).2.calls =
        w.calls ++ [.getCommitStatus name, .getPipelineActivity pipelineActName] ++ writes ∧
      ∀ c ∈ writes, (∃ s, c = .createCommitStatus s) ∨ (∃ s, c = .updateCommitStatus s) := by
  cases hrec : storedRecord w name with
  | none =>
    rw [upsert_absent env name pipelineActName url sha pullRequest context w hname hrec]
    refine ⟨[.createCommitStatus
      { Name := name, Labels := [("lastCommitSha", sha)],
        Spec := { Items := [newStatusDetails url sha pullRequest context
          (activityReference (env.getPipelineActivity pipelineActName))] } }], ?_, ?_⟩
    · rw [createCommitStatus_calls]
      simp [afterReads]
    · intro c hc
      exact Or.inl ⟨_, List.mem_singleton.mp hc⟩
  | some status =>
    rw [upsert_present env name pipelineActName url sha pullRequest context w status hname hrec]
    split
    · exact ⟨[], by simp [afterReads], by simp⟩
    · split
      · refine ⟨[.updateCommitStatus
          (setDetail status ((possibleStatusDetails sha status.Spec.Items).headD 0)
            (newStatusDetails url sha pullRequest context
              (activityReference (env.getPipelineActivity pipelineActName))))], ?_, ?_⟩
        · rw [updateCommitStatus_calls]
          simp [afterReads]
        · intro c hc
          exact Or.inr ⟨_, List.mem_singleton.mp hc⟩
      · exact ⟨[], by simp [afterReads], by simp⟩

theorem reads_of_writes (writes : List Call)
    (h : ∀ c ∈ writes, (∃ s, c = .createCommitStatus s) ∨ (∃ s, c = .updateCommitStatus s)) :
    statusReads writes = [] ∧ activityReads writes = [] := by
  induction writes with
  | nil => exact ⟨rfl, rfl⟩
  | cons c rest ih =>
    obtain ⟨h1, h2⟩ := ih (fun c2 hc2 => h c2 (List.mem_cons_of_mem _ hc2))
    rcases h c (List.mem_cons_self _ _) with ⟨s, hs⟩ | ⟨s, hs⟩
    · subst hs
      exact ⟨by simpa [statusReads] using h1, by simpa [activityReads] using h2⟩
    · subst hs
      exact ⟨by simpa [statusReads] using h1, by simpa [activityReads] using h2⟩

theorem upsert_reads (env : Env)
    (name pipelineActName url sha pullRequest context : String) (w : World)
    (hname : name ≠ "") :
    statusReads
        (UpsertCommitStatusCheck env name pipelineActName url sha pullRequest context w).2.calls =
        statusReads w.calls ++ [name] ∧
      activityReads
        (UpsertCommitStatusCheck env name pipelineActName url sha pullRequest context w).2.calls =
        activityReads w.calls ++ [pipelineActName] := by
  obtain ⟨writes, hcalls, hwrites⟩ :=
    upsert_trace env name pipelineActName url sha pullRequest context w hname
  obtain ⟨h1, h2⟩ := reads_of_writes writes hwrites
  rw [hcalls]
  unfold statusReads activityReads at *
  rw [List.filterMap_append, List.filterMap_append, h1, List.filterMap_append,
    List.filterMap_append, h2]
  simp

/-- When every upsert of the loop succeeds, the records read are those of the
contexts, in order, and each read is followed by the lookup of the activity
of the build. -/
theorem onPodContexts_reads (env : Env) (v : BuildVars) (sha : String)
    (contexts : List String) (w : World) (hpr : v.pullRequest ≠ "")
    (hnames : ∀ ctx ∈ contexts, recordName env v ctx ≠ "")
    (hok : (onPodContexts env v sha contexts w).1 = none) :
    statusReads (onPodContexts env v sha contexts w).2.calls =
        statusReads w.calls ++ contexts.map (recordName env v) ∧
      activityReads (onPodContexts env v sha contexts w).2.calls =
        activityReads w.calls ++ contexts.map (fun _ => activityName env v) := by
  induction contexts generalizing w with
  | nil => simp [onPodContexts]
  | cons ctx rest ih =>
    have hreads := upsert_reads env (recordName env v ctx) (activityName env v) v.sourceUrl sha
      v.pullRequest ctx w (hnames ctx (List.mem_cons_self _ _))
    cases hu : UpsertCommitStatusCheck env (recordName env v ctx) (activityName env v)
        v.sourceUrl sha v.pullRequest ctx w with
    | mk r w1 =>
      have hu2 : UpsertCommitStatusCheck env
          (env.ToValidName (v.org ++ "-" ++ v.repo ++ "-" ++ v.branch ++ "-" ++ ctx))
          (env.ToValidName (v.org ++ "-" ++ v.repo ++ "-" ++ v.branch ++ "-" ++ v.buildNumber))
          v.sourceUrl sha v.pullRequest ctx w = (r, w1) := hu
      rw [hu] at hreads
      simp only [onPodContexts, if_pos hpr, hu2] at hok ⊢
      cases r with
      | some err => exact Option.noConfusion hok
      | none =>
        simp only at hok ⊢
        obtain ⟨h1, h2⟩ := ih w1 (fun c hc => hnames c (List.mem_cons_of_mem _ hc)) hok
        rw [h1, h2, hreads.1, hreads.2]
        simp


/-- C12 as stated fails, twice. A branch build that declares an empty
`PULL_NUMBER` passes the guard and resolves the sha `sha0`, the resolver
returns two contexts, and `onPod` calls the resolver and makes no upsert at
all. And for the pull-request pod, when the Create of the first context
fails, `onPod` returns that error and the record of the second context is
never read. -/
theorem onPod_not_one_upsert_per_context :
    (passesGuard exampleEnv branchPod ∧
      effectiveSha branchPod = "sha0" ∧
      onPod exampleEnv (some branchPod) {} =
        (none, { calls := [.getBranchProtectionContexts "o" "r"] })) ∧
    (passesGuard failingCreateEnv pullRequestPod ∧
      effectiveSha pullRequestPod = "sha1" ∧
      (onPod failingCreateEnv (some pullRequestPod) {}).1 = some (.external "create failed") ∧
      statusReads (onPod failingCreateEnv (some pullRequestPod) {}).2.calls =
        ["o-r-PR-1-build"]) := by
  refine ⟨⟨passesGuard_buildPod exampleEnv _ (Or.inr rfl) (by decide), by decide, by decide⟩,
    ⟨passesGuard_buildPod failingCreateEnv _ (Or.inr rfl) (by decide), by decide, by decide,
      by decide⟩⟩

/-- C12, amended. One upsert per required context in `onPod`: for a pod that
passes the guard and resolves a non-empty sha, with the resolver returning
`contexts`, `onPod` calls the resolver and then, for a pull-request build,
invokes `UpsertCommitStatusCheck` once per context in the resolver's order,
with the record name derived from owner, repo, branch and context, the
activity name derived from owner, repo, branch and build number, and the
resolved sha, stopping at the first invocation that returns an error, which
it returns (`upsertStep`); when all of them succeed and the names are
non-empty, the store reads in the trace are those of the contexts, in order,
with one activity lookup each. For a build without pull-request identifier no
upsert is made, and none is made for the empty sequence; `onPod` then returns
nil. -/
theorem onPod_upserts (env : Env) (pod : Pod) (w : World) (contexts : List String)
    (hguard : passesGuard env pod) (hsha : effectiveSha pod ≠ "")
    (hctx : env.GetBranchProtectionContexts (resolvedVars pod).org (resolvedVars pod).repo =
      .ok contexts) :
    ((resolvedVars pod).pullRequest ≠ "" →
      onPod env (some pod) w =
        contexts.foldl (upsertStep env (resolvedVars pod) (effectiveSha pod))
          (none, w.record
            (.getBranchProtectionContexts (resolvedVars pod).org (resolvedVars pod).repo))) ∧
    ((resolvedVars pod).pullRequest ≠ "" →
      (∀ ctx ∈ contexts, recordName env (resolvedVars pod) ctx ≠ "") →
      (onPod env (some pod) w).1 = none →
      statusReads (onPod env (some pod) w).2.calls =
          statusReads w.calls ++ contexts.map (recordName env (resolvedVars pod)) ∧
        activityReads (onPod env (some pod) w).2.calls =
          activityReads w.calls ++ contexts.map (fun _ => activityName env (resolvedVars pod))) ∧
    ((resolvedVars pod).pullRequest = "" →
      onPod env (some pod) w =
        (none, w.record
          (.getBranchProtectionContexts (resolvedVars pod).org (resolvedVars pod).repo))) ∧
    (contexts = [] →
      onPod env (some pod) w =
        (none, w.record
          (.getBranchProtectionContexts (resolvedVars pod).org (resolvedVars pod).repo))) := by
  have hrun := onPod_passed env pod w hguard hsha
  rw [hctx] at hrun
  simp only at hrun
  refine ⟨?_, ?_, ?_, ?_⟩
  · intro hpr
    rw [hrun]
    exact onPodContexts_pull_request env _ _ contexts _ hpr
  · intro hpr hnames hok
    rw [hrun] at hok ⊢
    have h := onPodContexts_reads env _ _ contexts _ hpr hnames hok
    simpa [World.record, statusReads, activityReads, List.filterMap_append] using h
  · intro hpr
    rw [hrun]
    exact onPodContexts_no_pull_request env _ _ contexts _ hpr
  · intro hnil
    rw [hrun, hnil]
    rfl

/-- Witness of C12, amended: for the pull-request pod the records of the two
contexts are read in order, each with a lookup of the activity of build 3. -/
theorem onPod_upserts_witness :
    statusReads (onPod exampleEnv (some pullRequestPod) {}).2.calls =
        ["o-r-PR-1-build", "o-r-PR-1-lint"] ∧
      activityReads (onPod exampleEnv (some pullRequestPod) {}).2.calls =
        ["o-r-PR-1-3", "o-r-PR-1-3"] :=
  (onPod_upserts exampleEnv pullRequestPod {} ["build", "lint"]
    (passesGuard_buildPod exampleEnv _ (Or.inr rfl) (by decide)) (by decide) rfl).2.1
    (by decide) (by decide) (by decide)


/-! ## Further claims on `UpsertCommitStatusCheck` and on the success message -/

/-- C13, evaluated at a failing input. The example detail is checked, its
sub-checks all pass and its context is `build`; the description `update`
passes to the notifier is the format string itself, `%s completed
successfully`, not `build completed successfully`. -/
theorem update_success_description :
    exampleDetail3.Checked = true ∧
      (∀ c ∈ exampleDetail3.Items, c.Pass = true) ∧
      exampleDetail3.Context = "build" ∧
      notifications (update exampleEnv exampleDetail3 {}).2.calls =
        [.notifyCommitStatus exampleDetail3.Commit "success" "" "%s completed successfully" ""
          "build" { Kind := "github" } { URL := "https://github.com/o/r" }] ∧
      "%s completed successfully" ≠ exampleDetail3.Context ++ " completed successfully" := by
  refine ⟨by decide, by decide, by decide, by decide, by decide⟩

/-- C14 as stated fails for the empty name: nothing is stored under it and no
Create would fail, yet the call returns nil without any Create (and without
any read). -/
theorem upsert_empty_name_no_create :
    storedRecord {} "" = none ∧
      (∀ s, exampleEnv.createFault s = none) ∧
      UpsertCommitStatusCheck exampleEnv "" "act1" "url" "sha1" "PR-1" "build" {} = (none, {}) := by
  refine ⟨by decide, fun _ => rfl, by decide⟩

/-- C14, amended. Create path of `UpsertCommitStatusCheck`: for a non-empty name
under which no record is stored, when the Create of the record succeeds, the
call returns nil, makes the two reads and exactly one Create and no Update,
and the created record, which is added to the store, is named `name` and
holds exactly one detail: not checked, the commit of the event, the
looked-up activity reference (the empty reference when the lookup failed),
the context of the event and no sub-checks. -/
theorem upsert_creates (env : Env)
    (name pipelineActName url sha pullRequest context : String) (w : World)
    (hname : name ≠ "")
    (habs : storedRecord w name = none)
    (hcreate : ∀ s, s.Name = name → env.createFault s = none) :
    ∃ created,
      UpsertCommitStatusCheck env name pipelineActName url sha pullRequest context w =
        (none, { commitStatuses := w.commitStatuses ++ [created],
                 calls := w.calls ++ [.getCommitStatus name,
                   .getPipelineActivity pipelineActName, .createCommitStatus created] }) ∧
      created.Name = name ∧
      created.Spec.Items =
        [{ Checked := false,
           Commit := { GitURL := url, PullRequest := pullRequest, SHA := sha },
           PipelineActivity := activityReference (env.getPipelineActivity pipelineActName),
           Context := context,
           Items := [] }] ∧
      (∀ act, env.getPipelineActivity pipelineActName = .ok act →
        activityReference (env.getPipelineActivity pipelineActName) =
          { Name := act.Name, Kind := act.Kind, UID := act.UID, APIVersion := act.APIVersion }) ∧
      (∀ err, env.getPipelineActivity pipelineActName = .error err →
        activityReference (env.getPipelineActivity pipelineActName) = {}) := by
  refine ⟨
    { Name := name, Labels := [("lastCommitSha", sha)],
      Spec := { Items := [newStatusDetails url sha pullRequest context
                  (activityReference (env.getPipelineActivity pipelineActName))] } },
    ?_, rfl, rfl, ?_, ?_⟩
  · rw [upsert_absent env name pipelineActName url sha pullRequest context w hname habs]
    have hany : (afterReads w name pipelineActName).commitStatuses.any
        (fun s => s.Name == name) = false := any_of_find_none w.commitStatuses name habs
    have hfault : env.createFault
        { Name := name, Labels := [("lastCommitSha", sha)],
          Spec := { Items := [newStatusDetails url sha pullRequest context
                      (activityReference (env.getPipelineActivity pipelineActName))] } }
        = none := hcreate _ rfl
    unfold createCommitStatus
    simp only [hfault, World.record, hany, Bool.false_eq_true, if_false]
    simp [afterReads]
  · intro act hact
    rw [hact]; rfl
  · intro err herr
    rw [herr]; rfl

/-- Witness of C14, amended: on the empty store the record `r` is created, with
the reference to the looked-up activity `act1`. -/
theorem upsert_creates_witness :
    ∃ created,
      UpsertCommitStatusCheck exampleEnv "r" "act1" "url" "sha1" "PR-1" "build" {} =
        (none, { commitStatuses := ({} : World).commitStatuses ++ [created],
                 calls := ({} : World).calls ++ [.getCommitStatus "r",
                   .getPipelineActivity "act1", .createCommitStatus created] }) ∧
      created.Name = "r" ∧
      created.Spec.Items =
        [{ Checked := false,
           Commit := { GitURL := "url", PullRequest := "PR-1", SHA := "sha1" },
           PipelineActivity := activityReference (exampleEnv.getPipelineActivity "act1"),
           Context := "build",
           Items := [] }] ∧
      (∀ act, exampleEnv.getPipelineActivity "act1" = .ok act →
        activityReference (exampleEnv.getPipelineActivity "act1") =
          { Name := act.Name, Kind := act.Kind, UID := act.UID, APIVersion := act.APIVersion }) ∧
      (∀ err, exampleEnv.getPipelineActivity "act1" = .error err →
        activityReference (exampleEnv.getPipelineActivity "act1") = {}) :=
  upsert_creates exampleEnv "r" "act1" "url" "sha1" "PR-1" "build" {} (by decide) (by decide)
    (fun _ _ => rfl)

/-- C18, evaluated at the failing input. Called with the empty name,
`UpsertCommitStatusCheck` returns nil, not an error: the error value built
in the else branch is dropped. The state is unchanged, so no store read or
write is made. -/
theorem upsert_empty_name (env : Env) (pipelineActName url sha pullRequest context : String)
    (w : World) :
    UpsertCommitStatusCheck env "" pipelineActName url sha pullRequest context w = (none, w) := by
  simp [UpsertCommitStatusCheck]


theorem possible_of_only (sha : String) (status : CommitStatus) (i : Nat)
    (d : CommitStatusDetails) (hi : status.Spec.Items[i]? = some d) (hsha : d.Commit.SHA = sha)
    (honly : ∀ k d0, status.Spec.Items[k]? = some d0 → d0.Commit.SHA = sha → k = i) :
    possibleStatusDetails sha status.Spec.Items = [i] ∧ status.Spec.Items.getD i {} = d ∧
      i < status.Spec.Items.length := by
  refine ⟨?_, ?_, ?_⟩
  · have := possibleFrom_singleton sha status.Spec.Items 0 i d hi hsha honly
    simpa [possibleStatusDetails] using this
  · rw [List.getD_eq_getElem?_getD, hi]; rfl
  · by_contra hge
    rw [List.getElem?_eq_none (by omega)] at hi
    exact Option.noConfusion hi

/-- With exactly one detail for the sha, at index `i`, the call either sends the
record with the new detail at `i` to Update, when the activity UIDs differ, or
only reads. -/
theorem upsert_single_match (env : Env)
    (name pipelineActName url sha pullRequest context : String) (w : World)
    (status : CommitStatus) (i : Nat) (d : CommitStatusDetails)
    (hname : name ≠ "")
    (hrec : storedRecord w name = some status)
    (hi : status.Spec.Items[i]? = some d) (hsha : d.Commit.SHA = sha)
    (honly : ∀ k d0, status.Spec.Items[k]? = some d0 → d0.Commit.SHA = sha → k = i) :
    UpsertCommitStatusCheck env name pipelineActName url sha pullRequest context w =
      if d.PipelineActivity.UID ≠
          (activityReference (env.getPipelineActivity pipelineActName)).UID then
        updateCommitStatus env
          (setDetail status i (newStatusDetails url sha pullRequest context
            (activityReference (env.getPipelineActivity pipelineActName))))
          (afterReads w name pipelineActName)
      else (none, afterReads w name pipelineActName) := by
  obtain ⟨hposs, hgetD, _⟩ := possible_of_only sha status i d hi hsha honly
  rw [upsert_present env name pipelineActName url sha pullRequest context w status hname hrec,
    hposs]
  simp only [List.length_singleton, ne_eq, not_true_eq_false, false_and, if_false,
    List.headD_cons, true_and, hgetD]

/-- C19. Effect of a failed activity lookup in `UpsertCommitStatusCheck`: when
the record named `name` (non-empty, as every stored name is) holds exactly one
detail for the sha, at index `i`, and the lookup of the pipeline activity
fails, then, if the stored activity UID is non-empty, the call takes the
update path: after the two reads it sends to Update the record in which the
detail at `i` is replaced by one with the empty activity reference, not
checked and without sub-checks, every other detail being kept, and when that
Update succeeds this is the record stored afterwards; if the stored UID is
empty, the call only makes the two reads and writes nothing. -/
theorem upsert_failed_lookup (env : Env)
    (name pipelineActName url sha pullRequest context : String) (w : World)
    (status : CommitStatus) (i : Nat) (d : CommitStatusDetails) (err : Error)
    (hname : name ≠ "")
    (hrec : storedRecord w name = some status)
    (hi : status.Spec.Items[i]? = some d) (hsha : d.Commit.SHA = sha)
    (honly : ∀ k d0, status.Spec.Items[k]? = some d0 → d0.Commit.SHA = sha → k = i)
    (hlookup : env.getPipelineActivity pipelineActName = .error err) :
    (d.PipelineActivity.UID ≠ "" →
      ∃ updated,
        (UpsertCommitStatusCheck env name pipelineActName url sha pullRequest context
          w).2.calls =
          w.calls ++ [.getCommitStatus name, .getPipelineActivity pipelineActName,
            .updateCommitStatus updated] ∧
        updated.Spec.Items[i]? = some
          { PipelineActivity := {},
            Checked := false,
            Items := [],
            Commit := { GitURL := url, PullRequest := pullRequest, SHA := sha },
            Context := context } ∧
        (∀ k, k ≠ i → updated.Spec.Items[k]? = status.Spec.Items[k]?) ∧
        ((∀ s, s.Name = name → env.updateFault s = none) →
          (UpsertCommitStatusCheck env name pipelineActName url sha pullRequest context w).1 =
            none ∧
          storedRecord
            (UpsertCommitStatusCheck env name pipelineActName url sha pullRequest context w).2
            name = some updated)) ∧
    (d.PipelineActivity.UID = "" →
      UpsertCommitStatusCheck env name pipelineActName url sha pullRequest context w =
        (none, afterReads w name pipelineActName)) := by
  have hcall := upsert_single_match env name pipelineActName url sha pullRequest context w
    status i d hname hrec hi hsha honly
  have href : activityReference (env.getPipelineActivity pipelineActName) = {} := by
    rw [hlookup]; rfl
  rw [href] at hcall
  obtain ⟨_, _, hlt⟩ := possible_of_only sha status i d hi hsha honly
  have hn := name_of_find w.commitStatuses name status hrec
  have hany : w.commitStatuses.any (fun s => s.Name == name) = true :=
    any_of_find w.commitStatuses name status hrec
  constructor
  · intro huid
    have huid2 : d.PipelineActivity.UID ≠ ({} : ResourceReference).UID := huid
    rw [if_pos huid2] at hcall
    refine ⟨setDetail status i (newStatusDetails url sha pullRequest context {}), ?_, ?_, ?_, ?_⟩
    · rw [hcall, updateCommitStatus_calls]
      simp [afterReads]
    · simp [setDetail, List.getElem?_set_self hlt, newStatusDetails]
    · intro k hk
      simp [setDetail, List.getElem?_set_ne (Ne.symm hk)]
    · intro hupd
      have hsn : (setDetail status i (newStatusDetails url sha pullRequest context {})).Name
          = name := hn
      have hok := updateCommitStatus_succeeds env _ (afterReads w name pipelineActName)
        (hupd _ hsn) (by rw [hsn]; exact hany)
      rw [hcall]
      refine ⟨hok, ?_⟩
      unfold storedRecord
      rw [updateCommitStatus_ok env _ _ hok]
      have := find_replaceRecord
        (setDetail status i (newStatusDetails url sha pullRequest context {}))
        w.commitStatuses (by rw [hsn]; exact hany)
      rw [hsn] at this
      exact this
  · intro huid
    have huid2 : ¬ d.PipelineActivity.UID ≠ ({} : ResourceReference).UID := by
      intro h; exact h huid
    rw [if_neg huid2] at hcall
    exact hcall

/-- Witness of C19: in the example store the detail for `sha1` of record `r`
refers to `uid-act0`; with the lookup failing, the record sent to Update has
the detail with the empty reference at index 1. In the store whose detail for
`sha1` refers to no activity, the call only reads. -/
theorem upsert_failed_lookup_witness :
    (∃ updated,
      (UpsertCommitStatusCheck failingLookupEnv "r" "act1" "url" "sha1" "PR-1" "build"
        exampleWorld).2.calls =
        exampleWorld.calls ++ [.getCommitStatus "r", .getPipelineActivity "act1",
          .updateCommitStatus updated] ∧
      updated.Spec.Items[1]? = some
        { PipelineActivity := {},
          Checked := false,
          Items := [],
          Commit := { GitURL := "url", PullRequest := "PR-1", SHA := "sha1" },
          Context := "build" } ∧
      (∀ k, k ≠ 1 → updated.Spec.Items[k]? = exampleRecord.Spec.Items[k]?) ∧
      ((∀ s, s.Name = "r" → failingLookupEnv.updateFault s = none) →
        (UpsertCommitStatusCheck failingLookupEnv "r" "act1" "url" "sha1" "PR-1" "build"
          exampleWorld).1 = none ∧
        storedRecord
          (UpsertCommitStatusCheck failingLookupEnv "r" "act1" "url" "sha1" "PR-1" "build"
            exampleWorld).2 "r" = some updated)) ∧
    UpsertCommitStatusCheck failingLookupEnv "r" "act1" "url" "sha1" "PR-1" "build"
      unreferencedWorld = (none, afterReads unreferencedWorld "r" "act1") :=
  ⟨(upsert_failed_lookup failingLookupEnv "r" "act1" "url" "sha1" "PR-1" "build" exampleWorld
    exampleRecord 1 exampleDetail1 (.notFound "act1")
    (by decide) (by decide) (by decide) (by decide)
    (by
      intro k d0 hk hs
      match k, hk with
      | 0, hk =>
        have h0 : exampleDetail0 = d0 := by simpa [exampleRecord] using hk
        rw [← h0] at hs
        exact absurd hs (by decide)
      | 1, _ => rfl
      | k + 2, hk => simp [exampleRecord] at hk)
    rfl).1 (by decide),
   (upsert_failed_lookup failingLookupEnv "r" "act1" "url" "sha1" "PR-1" "build"
    unreferencedWorld unreferencedRecord 1 { exampleDetail1 with PipelineActivity := {} }
    (.notFound "act1")
    (by decide) (by decide) (by decide) (by decide)
    (by
      intro k d0 hk hs
      match k, hk with
      | 0, hk =>
        have h0 : exampleDetail0 = d0 := by simpa [unreferencedRecord] using hk
        rw [← h0] at hs
        exact absurd hs (by decide)
      | 1, _ => rfl
      | k + 2, hk => simp [unreferencedRecord] at hk)
    rfl).2 (by decide)⟩

theorem createCommitStatus_error (env : Env) (status : CommitStatus) (w : World) (err : Error)
    (h : (createCommitStatus env status w).1 = some err) :
    (createCommitStatus env status w).2.commitStatuses = w.commitStatuses := by
  unfold createCommitStatus at h ⊢
  cases hf : env.createFault status with
  | some e => rfl
  | none =>
    by_cases hany : (w.record (.createCommitStatus status)).commitStatuses.any
        (fun s => s.Name == status.Name) = true
    · simp only [hany, if_true]; rfl
    · simp [hf, hany] at h

theorem updateCommitStatus_error (env : Env) (status : CommitStatus) (w : World) (err : Error)
    (h : (updateCommitStatus env status w).1 = some err) :
    (updateCommitStatus env status w).2.commitStatuses = w.commitStatuses := by
  unfold updateCommitStatus at h ⊢
  cases hf : env.updateFault status with
  | some e => rfl
  | none =>
    by_cases hany : (w.record (.updateCommitStatus status)).commitStatuses.any
        (fun s => s.Name == status.Name) = true
    · simp [hf, hany] at h
    · simp only [hany, if_false]; rfl

/-- A call of `UpsertCommitStatusCheck` that returns an error leaves the store as
it was. -/
theorem upsert_error_store (env : Env)
    (name pipelineActName url sha pullRequest context : String) (w : World) (err : Error)
    (h : (UpsertCommitStatusCheck env name pipelineActName url sha pullRequest context w).1 =
      some err) :
    (UpsertCommitStatusCheck env name pipelineActName url sha pullRequest context
      w).2.commitStatuses = w.commitStatuses := by
  by_cases hname : name = ""
  · simp [UpsertCommitStatusCheck, hname]
  · cases hrec : storedRecord w name with
    | none =>
      rw [upsert_absent env name pipelineActName url sha pullRequest context w hname hrec] at h ⊢
      exact createCommitStatus_error env _ _ err h
    | some status =>
      rw [upsert_present env name pipelineActName url sha pullRequest context w status hname hrec]
        at h ⊢
      revert h
      split
      · intro _; rfl
      · split
        · intro h
          exact updateCommitStatus_error env _ _ err h
        · intro _; rfl

/-- C16. Missing-sha skip in `onPod`: when the resolved sha of the pod is empty,
`onPod` returns nil and leaves the state as it was: nothing is added to the
trace, so the context resolver is not called and no status record is read or
written. -/
theorem onPod_missing_sha (env : Env) (pod : Pod) (w : World)
    (hsha : effectiveSha pod = "") :
    onPod env (some pod) w = (none, w) := by
  unfold effectiveSha at hsha
  unfold onPod
  cases hl : pod.Labels with
  | none => simp only [hl]
  | some labels =>
    simp only [hl]
    cases hres : resolveSha (scanInitContainers pod) with
    | mk v sha =>
      rw [hres] at hsha
      simp only at hsha
      simp only [hsha, if_true, ite_self]

/-- Witness of C16: the pod of pull request 1 declares `PULL_BASE_SHA` but not
`PULL_PULL_SHA`; it passes the guard and its resolved sha is empty. -/
theorem onPod_missing_sha_witness :
    passesGuard exampleEnv podWithoutPullSha ∧
      (scanInitContainers podWithoutPullSha).pullRequest = "PR-1" ∧
      (scanInitContainers podWithoutPullSha).pullBaseSha = "sha0" ∧
      onPod exampleEnv (some podWithoutPullSha) exampleWorld = (none, exampleWorld) :=
  ⟨passesGuard_buildPod exampleEnv _ (Or.inr rfl) (by decide), by decide, by decide,
    onPod_missing_sha exampleEnv podWithoutPullSha exampleWorld (by decide)⟩

/-- C17. Fail-fast per event in `onPod`: for a pull-request pod that passes the
guard and resolves a non-empty sha, when the resolver returns `pre ++ ctx ::
post`, the upserts for the contexts of `pre` succeed and the upsert for `ctx`
fails with `E`, `onPod` returns `E` in the state that failed upsert left, so
that no upsert is made for a context of `post` (its last store read is the
one for `ctx`), and the store is the one the upserts for `pre` left. -/
theorem onPod_fail_fast (env : Env) (pod : Pod) (w : World) (pre post : List String)
    (ctx : String) (E : Error)
    (hguard : passesGuard env pod) (hsha : effectiveSha pod ≠ "")
    (hpr : (resolvedVars pod).pullRequest ≠ "")
    (hctx : env.GetBranchProtectionContexts (resolvedVars pod).org (resolvedVars pod).repo =
      .ok (pre ++ ctx :: post))
    (hpre : (pre.foldl (upsertStep env (resolvedVars pod) (effectiveSha pod))
      (none, w.record
        (.getBranchProtectionContexts (resolvedVars pod).org (resolvedVars pod).repo))).1 = none)
    (hfail : (UpsertCommitStatusCheck env (recordName env (resolvedVars pod) ctx)
      (activityName env (resolvedVars pod)) (resolvedVars pod).sourceUrl (effectiveSha pod)
      (resolvedVars pod).pullRequest ctx
      (pre.foldl (upsertStep env (resolvedVars pod) (effectiveSha pod))
        (none, w.record
          (.getBranchProtectionContexts (resolvedVars pod).org (resolvedVars pod).repo))).2).1 =
      some E) :
    onPod env (some pod) w =
        (some E,
          (UpsertCommitStatusCheck env (recordName env (resolvedVars pod) ctx)
            (activityName env (resolvedVars pod)) (resolvedVars pod).sourceUrl (effectiveSha pod)
            (resolvedVars pod).pullRequest ctx
            (pre.foldl (upsertStep env (resolvedVars pod) (effectiveSha pod))
              (none, w.record
                (.getBranchProtectionContexts (resolvedVars pod).org
                  (resolvedVars pod).repo))).2).2) ∧
      (onPod env (some pod) w).2.commitStatuses =
        (pre.foldl (upsertStep env (resolvedVars pod) (effectiveSha pod))
          (none, w.record
            (.getBranchProtectionContexts (resolvedVars pod).org
              (resolvedVars pod).repo))).2.commitStatuses ∧
      (statusReads (onPod env (some pod) w).2.calls).getLast? =
        some (recordName env (resolvedVars pod) ctx) := by
  have hrun := onPod_passed env pod w hguard hsha
  rw [hctx] at hrun
  simp only at hrun
  rw [onPodContexts_pull_request env _ _ _ _ hpr, List.foldl_append] at hrun
  cases hp : pre.foldl (upsertStep env (resolvedVars pod) (effectiveSha pod))
      (none, w.record
        (.getBranchProtectionContexts (resolvedVars pod).org (resolvedVars pod).repo)) with
  | mk r wp =>
    rw [hp] at hrun hpre hfail
    simp only at hpre hfail
    subst hpre
    cases hu : UpsertCommitStatusCheck env (recordName env (resolvedVars pod) ctx)
        (activityName env (resolvedVars pod)) (resolvedVars pod).sourceUrl (effectiveSha pod)
        (resolvedVars pod).pullRequest ctx wp with
    | mk r2 w2 =>
      have hstore := upsert_error_store env _ _ _ _ _ _ wp E hfail
      have hname : recordName env (resolvedVars pod) ctx ≠ "" := by
        intro hempty
        rw [hempty] at hfail
        simp [UpsertCommitStatusCheck] at hfail
      have hreads := (upsert_reads env _ (activityName env (resolvedVars pod))
        (resolvedVars pod).sourceUrl (effectiveSha pod) (resolvedVars pod).pullRequest ctx wp
        hname).1
      rw [hu] at hfail hstore hreads
      simp only at hfail hstore hreads
      subst hfail
      have hfinal : onPod env (some pod) w = (some E, w2) := by
        rw [hrun, List.foldl_cons]
        simp only [upsertStep, hu]
        exact foldl_upsertStep_error env _ _ post E w2
      rw [hfinal]
      refine ⟨rfl, hstore, ?_⟩
      simp only [hreads, List.getLast?_append, List.getLast?_singleton]
      rfl


/-- Witness of C17: the resolver returns `build`, `lint`, `test`; the record of
`build` is created, the Create for `lint` fails, and `test` is never reached:
the record of `build` is still stored and the last store read is the one for
`lint`. -/
theorem onPod_fail_fast_witness :
    (onPod failingLintEnv (some pullRequestPod) {}).1 = some (.external "create failed") ∧
      (storedRecord (onPod failingLintEnv (some pullRequestPod) {}).2 "o-r-PR-1-build").isSome ∧
      statusReads (onPod failingLintEnv (some pullRequestPod) {}).2.calls =
        ["o-r-PR-1-build", "o-r-PR-1-lint"] ∧
      ((onPod failingLintEnv (some pullRequestPod) {}).2.commitStatuses =
          (["build"].foldl
            (upsertStep failingLintEnv (resolvedVars pullRequestPod) (effectiveSha pullRequestPod))
            (none, ({} : World).record
              (.getBranchProtectionContexts (resolvedVars pullRequestPod).org
                (resolvedVars pullRequestPod).repo))).2.commitStatuses ∧
        (statusReads (onPod failingLintEnv (some pullRequestPod) {}).2.calls).getLast? =
          some (recordName failingLintEnv (resolvedVars pullRequestPod) "lint")) :=
  ⟨by decide, by decide, by decide,
    (onPod_fail_fast failingLintEnv pullRequestPod {} ["build"] ["test"] "lint"
      (.external "create failed")
      (passesGuard_buildPod failingLintEnv _ (Or.inr rfl) (by decide)) (by decide) (by decide)
      rfl (by decide) (by decide)).2⟩


/-! ## Further claims on `onCommitStatus` -/

/-- The only calls `getGitProvider` adds to the trace are calls of `os.Setenv`. -/
theorem getGitProvider_calls (env : Env) (url : String) (w : World) :
    ∃ extra, (getGitProvider env url w).2.calls = w.calls ++ extra ∧
      ∀ c ∈ extra, ∃ key value, c = .setenv key value := by
  unfold getGitProvider
  split
  · exact ⟨[], by simp, by simp⟩
  · split
    · exact ⟨[], by simp, by simp⟩
    · split
      · exact ⟨[], by simp, by simp⟩
      · split
        · rename_i server _
          simp only [setenv, World.record]
          split
          · rename_i h
            simp only [Prod.mk.injEq] at h
            rw [← h.2]
            exact ⟨[.setenv "GIT_USERNAME" (server.Users.headD {}).Username], rfl,
              by simp⟩
          · rename_i h
            simp only [Prod.mk.injEq] at h
            split
            · rename_i h2
              simp only [Prod.mk.injEq] at h2
              rw [← h2.2, ← h.2]
              exact ⟨[.setenv "GIT_USERNAME" (server.Users.headD {}).Username,
                .setenv "GIT_API_TOKEN" (server.Users.headD {}).ApiToken], by simp, by simp⟩
            · rename_i h2
              simp only [Prod.mk.injEq] at h2
              rw [← h2.2, ← h.2]
              exact ⟨[.setenv "GIT_USERNAME" (server.Users.headD {}).Username,
                .setenv "GIT_API_TOKEN" (server.Users.headD {}).ApiToken], by simp, by simp⟩
        · exact ⟨[], by simp, by simp⟩

theorem no_notification_of_setenv (extra : List Call)
    (h : ∀ c ∈ extra, ∃ key value, c = .setenv key value) :
    errorNotifications extra = [] ∧ notified extra = [] := by
  induction extra with
  | nil => exact ⟨rfl, rfl⟩
  | cons c rest ih =>
    obtain ⟨h1, h2⟩ := ih (fun c2 hc2 => h c2 (List.mem_cons_of_mem _ hc2))
    obtain ⟨key, value, hc⟩ := h c (List.mem_cons_self _ _)
    subst hc
    exact ⟨by simpa [errorNotifications] using h1, by simpa [notified] using h2⟩

theorem getGitProvider_quiet (env : Env) (url : String) (w : World) :
    errorNotifications (getGitProvider env url w).2.calls = errorNotifications w.calls ∧
      notified (getGitProvider env url w).2.calls = notified w.calls := by
  obtain ⟨extra, hcalls, hextra⟩ := getGitProvider_calls env url w
  obtain ⟨h1, h2⟩ := no_notification_of_setenv extra hextra
  rw [hcalls]
  unfold errorNotifications notified at *
  rw [List.filter_append, List.filterMap_append, h1, h2]
  simp

/-- What `update` does when the git provider is not resolved: it returns the
error, without any notifier call. -/
theorem update_unresolved (env : Env) (d : CommitStatusDetails) (w : World) (err : Error)
    (hgit : (getGitProvider env d.Commit.GitURL w).1 = .error err) :
    update env d w = (some err, (getGitProvider env d.Commit.GitURL w).2) := by
  unfold update
  cases hg : getGitProvider env d.Commit.GitURL w with
  | mk r w1 =>
    rw [hg] at hgit
    simp only at hgit
    subst hgit
    rfl

theorem notify_summary (env : Env) (commit : CommitStatusCommitReference)
    (state targetUrl description comment context : String)
    (gitProvider : GitProvider) (gitRepoInfo : GitRepositoryInfo) (w : World) :
    errorNotifications (NotifyCommitStatus env commit state targetUrl description comment context
        gitProvider gitRepoInfo w).2.calls =
        errorNotifications w.calls ++
          (if state = "error" then [.notifyCommitStatus commit state targetUrl description comment
            context gitProvider gitRepoInfo] else []) ∧
      notified (NotifyCommitStatus env commit state targetUrl description comment context
        gitProvider gitRepoInfo w).2.calls = notified w.calls ++ [(commit, state, context)] := by
  constructor
  · by_cases hs : state = "error"
    · simp [NotifyCommitStatus, World.record, errorNotifications, hs]
    · simp [NotifyCommitStatus, World.record, errorNotifications, hs]
  · simp [NotifyCommitStatus, World.record, notified]

theorem all_pass_flags (items : List CommitStatusItem) :
    (items.map (fun c => c.Pass)).all id = items.all (fun c => c.Pass) := by
  induction items with
  | nil => rfl
  | cons c rest ih => simp [List.all_cons, ih]

/-- The notifier call of `update`, in summary: none with state `error`, and,
once the git provider is resolved, one with the commit and the context of
the detail and the state the specification gives. -/
theorem update_summary (env : Env) (d : CommitStatusDetails) (w : World) :
    errorNotifications (update env d w).2.calls = errorNotifications w.calls ∧
      (∀ p, (getGitProvider env d.Commit.GitURL w).1 = .ok p →
        notified (update env d w).2.calls =
          notified w.calls ++
            [(d.Commit, expectedState d.Checked (d.Items.map (fun c => c.Pass)), d.Context)]) := by
  cases hres : (getGitProvider env d.Commit.GitURL w).1 with
  | error err =>
    rw [update_unresolved env d w err hres]
    refine ⟨(getGitProvider_quiet env d.Commit.GitURL w).1, ?_⟩
    intro p hp
    exact Except.noConfusion hp
  | ok p =>
    obtain ⟨gitProvider, gitRepoInfo⟩ := p
    have hall : (d.Items.map (fun c => c.Pass)).all id = d.Items.all (fun c => c.Pass) :=
      all_pass_flags d.Items
    rw [update_resolved env d w gitProvider gitRepoInfo hres]
    constructor
    · cases d.Checked <;> cases (d.Items.all fun c => c.Pass) <;>
        simp [(notify_summary env _ _ _ _ _ _ _ _ _).1, (getGitProvider_quiet env _ w).1]
    · intro p _
      unfold expectedState
      rw [hall]
      cases d.Checked <;> cases (d.Items.all fun c => c.Pass) <;>
        simp [(notify_summary env _ _ _ _ _ _ _ _ _).2, (getGitProvider_quiet env _ w).2]


theorem update_succeeds (env : Env) (d : CommitStatusDetails) (w : World)
    (p : GitProvider × GitRepositoryInfo)
    (hgit : (getGitProvider env d.Commit.GitURL w).1 = .ok p)
    (hnotify : ∀ commit state targetUrl description comment context gp info,
      env.NotifyCommitStatus commit state targetUrl description comment context gp info = none) :
    (update env d w).1 = none := by
  obtain ⟨gitProvider, gitRepoInfo⟩ := p
  rw [update_resolved env d w gitProvider gitRepoInfo hgit]
  cases d.Checked <;> cases (d.Items.all fun c => c.Pass) <;>
    simp [NotifyCommitStatus, hnotify]

theorem onCommitStatusItems_cons_ok (env : Env) (v : CommitStatusDetails)
    (rest : List CommitStatusDetails) (w : World) (h : (update env v w).1 = none) :
    onCommitStatusItems env (v :: rest) w = onCommitStatusItems env rest (update env v w).2 := by
  cases hu : update env v w with
  | mk r w1 =>
    rw [hu] at h
    simp only at h
    subst h
    simp only [onCommitStatusItems, hu]

theorem onCommitStatusItems_cons_error (env : Env) (v : CommitStatusDetails)
    (rest : List CommitStatusDetails) (w : World) (err : Error)
    (h : (update env v w).1 = some err) :
    onCommitStatusItems env (v :: rest) w =
      match getGitProvider env v.Commit.GitURL (update env v w).2 with
      | (.error err1, w2) => (some err1, w2)
      | (.ok (gitProvider, gitRepoInfo), w2) =>
        (some err, (NotifyCommitStatus env v.Commit "error" ""
          "Internal Error performing commit status updates" "" v.Context
          gitProvider gitRepoInfo w2).2) := by
  cases hu : update env v w with
  | mk r w1 =>
    rw [hu] at h
    simp only at h
    subst h
    simp only [onCommitStatusItems, hu]
    split
    · rfl
    · split <;> simp_all

theorem update_result_of_cons_ok (env : Env) (v : CommitStatusDetails)
    (rest : List CommitStatusDetails) (w : World)
    (h : (onCommitStatusItems env (v :: rest) w).1 = none) : (update env v w).1 = none := by
  cases hu : (update env v w).1 with
  | none => rfl
  | some err =>
    exfalso
    rw [onCommitStatusItems_cons_error env v rest w err hu] at h
    revert h
    split <;> (intro h; exact Option.noConfusion h)

theorem onCommitStatusItems_ok_quiet (env : Env) (pre : List CommitStatusDetails) (w : World)
    (hpre : (onCommitStatusItems env pre w).1 = none) :
    errorNotifications (onCommitStatusItems env pre w).2.calls = errorNotifications w.calls := by
  induction pre generalizing w with
  | nil => rfl
  | cons v rest ih =>
    have hu := update_result_of_cons_ok env v rest w hpre
    rw [onCommitStatusItems_cons_ok env v rest w hu] at hpre ⊢
    rw [ih _ hpre, (update_summary env v w).1]

/-- C15 as stated fails: in an environment where the git provider cannot be
resolved, `update` fails on the first detail of the example record, and
`onCommitStatus` returns without any notifier call, so without a
notification with state `error`. -/
theorem onCommitStatus_no_error_notification :
    (update unresolvedEnv exampleDetail2 {}).1 = some (.external "cannot parse git url") ∧
      (onCommitStatus unresolvedEnv exampleCheck {}).1 =
        some (.external "cannot parse git url") ∧
      notifications (onCommitStatus unresolvedEnv exampleCheck {}).2.calls = [] ∧
      errorNotifications (onCommitStatus unresolvedEnv exampleCheck {}).2.calls = [] := by
  refine ⟨by decide, by decide, by decide, by decide⟩

/-- C15, amended. Error notification on update failure in `onCommitStatus`: when
`update` fails with `E` on a detail of the record, the details before it
having been processed without error, `onCommitStatus` resolves the git
provider again. When that succeeds it calls the notifier with state `error`,
the commit and the context of that detail, and returns `E` in the state that
call left: this is the only notification with state `error` added to the
trace, and no later detail is processed. When it fails it returns the
resolution error in the state the resolution left, without any notification
with state `error`, and again no later detail is processed. -/
theorem onCommitStatus_error_notification (env : Env) (check : CommitStatus)
    (pre post : List CommitStatusDetails) (d : CommitStatusDetails) (w : World) (E : Error)
    (hitems : check.Spec.Items = pre ++ d :: post)
    (hpre : (onCommitStatusItems env pre w).1 = none)
    (hupd : (update env d (onCommitStatusItems env pre w).2).1 = some E) :
    (∀ gitProvider gitRepoInfo,
      (getGitProvider env d.Commit.GitURL
        (update env d (onCommitStatusItems env pre w).2).2).1 = .ok (gitProvider, gitRepoInfo) →
      (onCommitStatus env check w).1 = some E ∧
      (onCommitStatus env check w).2 =
        (NotifyCommitStatus env d.Commit "error" ""
          "Internal Error performing commit status updates" "" d.Context gitProvider gitRepoInfo
          (getGitProvider env d.Commit.GitURL
            (update env d (onCommitStatusItems env pre w).2).2).2).2 ∧
      errorNotifications (onCommitStatus env check w).2.calls =
        errorNotifications w.calls ++ [.notifyCommitStatus d.Commit "error" ""
          "Internal Error performing commit status updates" "" d.Context
          gitProvider gitRepoInfo]) ∧
    (∀ err1,
      (getGitProvider env d.Commit.GitURL
        (update env d (onCommitStatusItems env pre w).2).2).1 = .error err1 →
      onCommitStatus env check w =
        (some err1, (getGitProvider env d.Commit.GitURL
          (update env d (onCommitStatusItems env pre w).2).2).2) ∧
      errorNotifications (onCommitStatus env check w).2.calls = errorNotifications w.calls) := by
  have hquiet : errorNotifications
      (getGitProvider env d.Commit.GitURL
        (update env d (onCommitStatusItems env pre w).2).2).2.calls =
      errorNotifications w.calls := by
    rw [(getGitProvider_quiet env _ _).1, (update_summary env d _).1,
      onCommitStatusItems_ok_quiet env pre w hpre]
  have hrun : onCommitStatus env check w =
      match getGitProvider env d.Commit.GitURL
          (update env d (onCommitStatusItems env pre w).2).2 with
      | (.error err1, w2) => (some err1, w2)
      | (.ok (gitProvider, gitRepoInfo), w2) =>
        (some E, (NotifyCommitStatus env d.Commit "error" ""
          "Internal Error performing commit status updates" "" d.Context
          gitProvider gitRepoInfo w2).2) := by
    unfold onCommitStatus
    rw [hitems, onCommitStatusItems_append env pre (d :: post) w hpre,
      onCommitStatusItems_cons_error env d post _ E hupd]
  constructor
  · intro gitProvider gitRepoInfo hgit
    cases hg : getGitProvider env d.Commit.GitURL
        (update env d (onCommitStatusItems env pre w).2).2 with
    | mk r w2 =>
      rw [hg] at hgit hquiet hrun
      simp only at hgit hquiet
      subst hgit
      simp only at hrun
      rw [hrun]
      refine ⟨rfl, rfl, ?_⟩
      simp only
      rw [(notify_summary env _ _ _ _ _ _ _ _ _).1, hquiet]
      simp
  · intro err1 hgit
    cases hg : getGitProvider env d.Commit.GitURL
        (update env d (onCommitStatusItems env pre w).2).2 with
    | mk r w2 =>
      rw [hg] at hgit hquiet hrun
      simp only at hgit hquiet
      subst hgit
      simp only at hrun
      rw [hrun]
      exact ⟨rfl, hquiet⟩

/-- Witness of C15, amended: the notifier accepts the pending notification of
the first detail and fails on the failure notification of the second; the
provider resolves again and the one `error` notification carries the commit
and the context of the second detail. -/
theorem onCommitStatus_error_notification_witness :
    errorNotifications (onCommitStatus failingNotifyEnv exampleCheck {}).2.calls =
      errorNotifications ({} : World).calls ++ [.notifyCommitStatus exampleDetail1.Commit "error" ""
        "Internal Error performing commit status updates" "" exampleDetail1.Context
        { Kind := "github" } { URL := "https://github.com/o/r" }] :=
  ((onCommitStatus_error_notification failingNotifyEnv exampleCheck [exampleDetail2]
    [exampleDetail0] exampleDetail1 {} (.external "update failed")
    (by decide) (by decide) (by decide)).1 { Kind := "github" }
    { URL := "https://github.com/o/r" } (by rfl)).2.2


theorem onCommitStatusItems_all_ok (env : Env) (items : List CommitStatusDetails) (w : World)
    (hgit : ∀ d ∈ items, ∀ w0, ∃ p, (getGitProvider env d.Commit.GitURL w0).1 = .ok p)
    (hnotify : ∀ commit state targetUrl description comment context gp info,
      env.NotifyCommitStatus commit state targetUrl description comment context gp info = none) :
    (onCommitStatusItems env items w).1 = none ∧
      notified (onCommitStatusItems env items w).2.calls =
        notified w.calls ++ items.map (fun d =>
          (d.Commit, expectedState d.Checked (d.Items.map (fun c => c.Pass)), d.Context)) := by
  induction items generalizing w with
  | nil => simp [onCommitStatusItems]
  | cons v rest ih =>
    obtain ⟨p, hp⟩ := hgit v (List.mem_cons_self _ _) w
    have hu := update_succeeds env v w p hp hnotify
    obtain ⟨h1, h2⟩ := ih (update env v w).2
      (fun d hd => hgit d (List.mem_cons_of_mem _ hd))
    rw [onCommitStatusItems_cons_ok env v rest w hu]
    refine ⟨h1, ?_⟩
    rw [h2, (update_summary env v w).2 p hp]
    simp

/-- C20. Notification sequence of `onCommitStatus`: when the git provider
resolves for every detail of the record and every notifier call succeeds,
`onCommitStatus` returns nil and adds to the trace exactly one notification
per detail, in the order of the details, the i-th with the commit and the
context of the i-th detail and with the state `expectedState` gives from the
checked flag and the pass flags of the sub-checks of that detail alone; that
state is `pending`, `success` or `failure`, never `error`, and no
notification with state `error` is added. -/
theorem onCommitStatus_notifications (env : Env) (check : CommitStatus) (w : World)
    (hgit : ∀ d ∈ check.Spec.Items, ∀ w0, ∃ p, (getGitProvider env d.Commit.GitURL w0).1 = .ok p)
    (hnotify : ∀ commit state targetUrl description comment context gp info,
      env.NotifyCommitStatus commit state targetUrl description comment context gp info = none) :
    (onCommitStatus env check w).1 = none ∧
      notified (onCommitStatus env check w).2.calls =
        notified w.calls ++ check.Spec.Items.map (fun d =>
          (d.Commit, expectedState d.Checked (d.Items.map (fun c => c.Pass)), d.Context)) ∧
      errorNotifications (onCommitStatus env check w).2.calls = errorNotifications w.calls ∧
      ∀ checked passes,
        (expectedState checked passes = "pending" ∨ expectedState checked passes = "success" ∨
          expectedState checked passes = "failure") ∧
        expectedState checked passes ≠ "error" := by
  obtain ⟨h1, h2⟩ := onCommitStatusItems_all_ok env check.Spec.Items w hgit hnotify
  refine ⟨h1, h2, onCommitStatusItems_ok_quiet env check.Spec.Items w h1, ?_⟩
  intro checked passes
  unfold expectedState
  cases checked <;> cases (passes.all id) <;> simp

/-- Witness of C20: the three details of the example record are pending, failing
and passing, and are notified in that order. -/
theorem onCommitStatus_notifications_witness :
    (onCommitStatus exampleEnv exampleCheck {}).1 = none ∧
      notified (onCommitStatus exampleEnv exampleCheck {}).2.calls =
        [(exampleDetail2.Commit, "pending", "build"),
         (exampleDetail1.Commit, "failure", "build"),
         (exampleDetail0.Commit, "success", "build")] :=
  ⟨(onCommitStatus_notifications exampleEnv exampleCheck {}
      (fun _ _ _ => ⟨_, rfl⟩) (fun _ _ _ _ _ _ _ _ => rfl)).1,
    (onCommitStatus_notifications exampleEnv exampleCheck {}
      (fun _ _ _ => ⟨_, rfl⟩) (fun _ _ _ _ _ _ _ _ => rfl)).2.1⟩

end Jx
